import Mathlib

/-!
Shallow embedding of the LattiCS simulation core (src/lattics) and proofs
about the behaviour its specification claims.

Conventions used throughout:
* Python exceptions are modelled by the `Err` type together with `Except`.
* Machine floats are modelled by the elements of a generic linear ordered
  field `F` (instantiated with `ℝ` in theorems); transcendental functions
  (`np.sqrt`, `np.exp`) are passed as explicit function parameters so that
  all definitions stay computable.
* Agents are identified by their integer id (`Nat`); an agent's attribute
  dictionary is modelled by a record with one `Option` field per attribute
  that the core reads or writes (`none` = the key is absent).
-/

deriving instance DecidableEq for Except

namespace Lattics

/-- Python exceptions raised by the core, by kind and offending name. -/
inductive Err where
  | keyError (name : String)
  | valueError (msg : String)
  | attributeError (name : String)
  deriving DecidableEq, Repr

/-! ### Unit conversion (src/lattics/core/_convert.py) -/

/-- The `TIME_UNITS` table of `convert_time`: milliseconds per unit. -/
def TIME_UNITS : List (String × ℚ) :=
  [("ms", 1), ("sec", 1000), ("min", 60 * 1000), ("hour", 60 * 60 * 1000),
   ("day", 24 * 60 * 60 * 1000), ("week", 7 * 24 * 60 * 60 * 1000)]

/-- `convert_time(value, from_unit, to_unit)`: scales by the unit table,
raising `ValueError` on an unknown unit string. -/
def convert_time (value : ℚ) (from_unit to_unit : String) : Except Err ℚ :=
  match TIME_UNITS.lookup from_unit, TIME_UNITS.lookup to_unit with
  | some f, some t => .ok (value * f / t)
  | none, _ => .error (.valueError ("Invalid time unit: " ++ from_unit))
  | _, none => .error (.valueError ("Invalid time unit: " ++ to_unit))

/-! ### The main loop on an empty simulation (src/lattics/core/_simulation.py)

`Simulation.run` specialised to a freshly constructed simulation that has no
agents, no space, no models, no events and no `dt_history`: in that case the
body of each loop iteration only advances `_time` by `dt_ms`
(`_update_events` and `_update_models` iterate empty lists, the space branch
and the history branch are not taken). -/

/-- The state of a `Simulation` with no space, models, events or history:
its integer-millisecond clock (a Python float, exact here) and agent list. -/
structure SimulationEmpty where
  time : ℚ
  agents : List Nat
  deriving DecidableEq, Repr

/-- The `for i in range(steps)` loop of `Simulation.run` on an empty
simulation: each iteration ends with `self._time += dt_ms`. -/
def run_loop_empty (dt_ms : ℚ) : Nat → SimulationEmpty → SimulationEmpty
  | 0, s => s
  | n + 1, s => run_loop_empty dt_ms n { s with time := s.time + dt_ms }

/-- `Simulation.run(time, dt)` on an empty simulation: converts both
arguments to milliseconds, computes `steps = ceil(time_ms / dt_ms) + 1`
and runs the loop that many times. -/
def Simulation.run_empty (s : SimulationEmpty) (time dt : ℚ × String) :
    Except Err SimulationEmpty := do
  let time_ms ← convert_time time.1 time.2 "ms"
  let dt_ms ← convert_time dt.1 dt.2 "ms"
  let steps : Nat := (Int.ceil (time_ms / dt_ms)).toNat + 1
  .ok (run_loop_empty dt_ms steps s)

/-! ### Model registration order (src/lattics/core/_simulation.py)

`Simulation.add_agent` invokes `initialize_attributes` of every *currently
registered* model on the new agent; `Simulation.add_model` only appends the
model to `self._models`.  `init_calls` logs every `initialize_attributes`
invocation as a `(model, agent)` pair. -/

/-- A simulation viewed through its agent list, model list and the log of
`initialize_attributes` invocations. -/
structure SimulationInitLog where
  agents : List Nat
  models : List Nat
  init_calls : List (Nat × Nat)
  deriving DecidableEq, Repr

/-- `Simulation.add_agent` (no space installed): append the agent, then call
`m.initialize_attributes(agent)` for each registered model `m`. -/
def SimulationInitLog.add_agent (s : SimulationInitLog) (a : Nat) :
    SimulationInitLog :=
  { s with
    agents := s.agents ++ [a]
    init_calls := s.init_calls ++ s.models.map (fun m => (m, a)) }

/-- `Simulation.add_model`: the model is appended to `self._models` and
nothing else happens. -/
def SimulationInitLog.add_model (s : SimulationInitLog) (m : Nat) :
    SimulationInitLog :=
  { s with models := s.models ++ [m] }

/-! ### Agent attributes (src/lattics/core/_agent.py)

An agent's attribute dictionary, restricted to the keys the core reads or
writes; a `none` field models an absent key.  `substrate_info` keeps only
the keys of the per-substrate dictionary — the spaces only iterate
`info.keys()`. -/

/-- The attribute dictionary of one agent. -/
@[ext]
structure AgentAttrs where
  division_pending : Option Bool := none
  division_completed : Option Bool := none
  remove_pending : Option Bool := none
  volume : Option ℤ := none
  position : Option (ℤ × ℤ) := none
  motility : Option ℚ := none
  binding_affinity : Option ℚ := none
  displacement_limit : Option ℤ := none
  substrate_info : Option (List String) := none
  deriving DecidableEq, Repr

/-- `Agent.get_attribute(name)`: the value, or `KeyError` if absent. -/
def getAttr {α : Type} (name : String) : Option α → Except Err α
  | some v => .ok v
  | none => .error (.keyError name)

/-- Append an agent to the dynamic-node list of the named substrate;
`self._substrates[i]` raises `KeyError` for an unknown substrate name. -/
def add_dynamic_node (name : String) (a : Nat) :
    List (String × List Nat) → Except Err (List (String × List Nat))
  | [] => .error (.keyError name)
  | (n, l) :: rest =>
    if n = name then .ok ((n, l ++ [a]) :: rest)
    else match add_dynamic_node name a rest with
      | .error e => .error e
      | .ok r => .ok ((n, l) :: r)

/-- Register one agent as a dynamic node of every substrate named in its
`substrate_info` keys (the `for i in info.keys()` loop). -/
def register_dynamic_nodes (a : Nat) :
    List String → List (String × List Nat) → Except Err (List (String × List Nat))
  | [], subs => .ok subs
  | name :: rest, subs =>
    match add_dynamic_node name a subs with
    | .error e => .error e
    | .ok subs1 => register_dynamic_nodes a rest subs1

/-! ### Lattice kernels (src/lattics/numba_functions.py)

Floats are modelled over a generic linear ordered field `F`; `np.sqrt` and
`np.exp` are passed as explicit function parameters (instantiated with
`Real.sqrt` and `Real.exp` in theorems).  `np.Inf` is modelled by `⊤` in
`WithTop F`. -/

/-- `get_neighborhood_2d(type)`: the von-Neumann and Moore offset tables.
The source raises `ValueError` on any other argument; callers only pass
these two literals. -/
def get_neighborhood_2d (t : String) : List (ℤ × ℤ) :=
  if t = "von_neumann" then
    [(-1, 0), (1, 0), (0, -1), (0, 1)]
  else if t = "moore" then
    [(-1, -1), (-1, 0), (-1, 1), (0, -1), (0, 1), (1, -1), (1, 0), (1, 1)]
  else []

/-- `pairwise_interaction_energy_2d`: `np.Inf` at distance 0,
`-np.sqrt(b1*b2)` at distance 1, else 0 — where `distance` is the
*Manhattan* distance `abs(dx) + abs(dy)`. -/
def pairwise_interaction_energy_2d {F : Type} [LinearOrderedField F]
    (sqrt : F → F) (position_one : ℤ × ℤ) (bindig_aff_one : F)
    (position_two : ℤ × ℤ) (binding_aff_two : F) : WithTop F :=
  let distance := |position_one.1 - position_two.1| + |position_one.2 - position_two.2|
  if distance = 0 then ⊤
  else if distance = 1 then ((-sqrt (bindig_aff_one * binding_aff_two) : F) : WithTop F)
  else ((0 : F) : WithTop F)

/-- The finite branches of `pairwise_interaction_energy_2d`, used inside
the total-energy accumulation where the distance-0 branch is unreachable
(every Moore offset is nonzero); see
`total_interaction_energy_2d_eq_coe`. -/
def pairwise_interaction_energy_fin_2d {F : Type} [LinearOrderedField F]
    (sqrt : F → F) (position_one : ℤ × ℤ) (bindig_aff_one : F)
    (position_two : ℤ × ℤ) (binding_aff_two : F) : F :=
  let distance := |position_one.1 - position_two.1| + |position_one.2 - position_two.2|
  if distance = 1 then -sqrt (bindig_aff_one * binding_aff_two)
  else 0

/-- The `for i in range(n_size)` accumulation of
`total_interaction_energy_2d`, literally over `WithTop F` (float with
`np.Inf`): skip out-of-bounds neighbor cells and cells whose
`agent_idx_array` entry is `-1`, add the pairwise energy otherwise. -/
def total_energy_loop_wt {F : Type} [LinearOrderedField F] (sqrt : F → F)
    (agent_pos : ℤ × ℤ) (agent_bind : F) (bind_affs : List F) (sizes : ℤ × ℤ)
    (agent_idx_array : ℤ × ℤ → ℤ) :
    List (ℤ × ℤ) → WithTop F → WithTop F
  | [], energy => energy
  | d :: rest, energy =>
    let neighbor_pos := (agent_pos.1 + d.1, agent_pos.2 + d.2)
    let energy' :=
      if 0 ≤ neighbor_pos.1 ∧ neighbor_pos.1 < sizes.1 ∧
          0 ≤ neighbor_pos.2 ∧ neighbor_pos.2 < sizes.2 then
        if agent_idx_array neighbor_pos ≠ -1 then
          let nidx := agent_idx_array neighbor_pos
          let neighbor_bind := bind_affs.getD nidx.toNat 0
          energy + pairwise_interaction_energy_2d sqrt agent_pos agent_bind
            neighbor_pos neighbor_bind
        else energy
      else energy
    total_energy_loop_wt sqrt agent_pos agent_bind bind_affs sizes
      agent_idx_array rest energy'

/-- Same accumulation with the finite pairwise energy, valued in `F`. -/
def total_energy_loop {F : Type} [LinearOrderedField F] (sqrt : F → F)
    (agent_pos : ℤ × ℤ) (agent_bind : F) (bind_affs : List F) (sizes : ℤ × ℤ)
    (agent_idx_array : ℤ × ℤ → ℤ) :
    List (ℤ × ℤ) → F → F
  | [], energy => energy
  | d :: rest, energy =>
    let neighbor_pos := (agent_pos.1 + d.1, agent_pos.2 + d.2)
    let energy' :=
      if 0 ≤ neighbor_pos.1 ∧ neighbor_pos.1 < sizes.1 ∧
          0 ≤ neighbor_pos.2 ∧ neighbor_pos.2 < sizes.2 then
        if agent_idx_array neighbor_pos ≠ -1 then
          let nidx := agent_idx_array neighbor_pos
          let neighbor_bind := bind_affs.getD nidx.toNat 0
          energy + pairwise_interaction_energy_fin_2d sqrt agent_pos agent_bind
            neighbor_pos neighbor_bind
        else energy
      else energy
    total_energy_loop sqrt agent_pos agent_bind bind_affs sizes
      agent_idx_array rest energy'

/-- `total_interaction_energy_2d(idx, agent_pos, bind_affs, agent_idx_array)`
over `WithTop F`: sum of pairwise energies with the occupied in-bounds Moore
neighbors of `agent_pos`.  `sizes` is `agent_idx_array.shape`; the array is
a function from cell to agent index with `-1` marking an empty cell. -/
def total_interaction_energy_wt_2d {F : Type} [LinearOrderedField F]
    (sqrt : F → F) (idx : ℕ) (agent_pos : ℤ × ℤ) (bind_affs : List F)
    (sizes : ℤ × ℤ) (agent_idx_array : ℤ × ℤ → ℤ) : WithTop F :=
  total_energy_loop_wt sqrt agent_pos (bind_affs.getD idx 0) bind_affs sizes
    agent_idx_array (get_neighborhood_2d "moore") ((0 : F) : WithTop F)

/-- `total_interaction_energy_2d`, valued in `F`.  It agrees with the
`WithTop F` version (`total_interaction_energy_2d_eq_coe`) because no Moore
offset is zero, so the `np.Inf` branch of the pairwise energy is dead. -/
def total_interaction_energy_2d {F : Type} [LinearOrderedField F]
    (sqrt : F → F) (idx : ℕ) (agent_pos : ℤ × ℤ) (bind_affs : List F)
    (sizes : ℤ × ℤ) (agent_idx_array : ℤ × ℤ → ℤ) : F :=
  total_energy_loop sqrt agent_pos (bind_affs.getD idx 0) bind_affs sizes
    agent_idx_array (get_neighborhood_2d "moore") 0

/-- `displace_agent_2d(positions, idx, new_position, agent_idx_array)`:
clear the agent's old cell in the index array, write `idx` at the new cell,
and update `positions[idx]`. -/
def displace_agent_2d (positions : List (ℤ × ℤ)) (idx : ℕ)
    (new_position : ℤ × ℤ) (agent_idx_array : ℤ × ℤ → ℤ) :
    List (ℤ × ℤ) × (ℤ × ℤ → ℤ) :=
  let old_position := positions.getD idx (0, 0)
  let arr1 := Function.update agent_idx_array old_position (-1)
  let arr2 := Function.update arr1 new_position (idx : ℤ)
  (positions.set idx new_position, arr2)

/-- The tentative target cell of a displacement trial:
`np.add(positions[idx], neighborhood[n_idx])` with the von-Neumann
neighborhood. -/
def trial_target_2d (positions : List (ℤ × ℤ)) (idx : ℕ) (n_choice : Fin 4) :
    ℤ × ℤ :=
  let current_pos := positions.getD idx (0, 0)
  let d := (get_neighborhood_2d "von_neumann").getD n_choice.val (0, 0)
  (current_pos.1 + d.1, current_pos.2 + d.2)

/-- `displacement_trial_2d(idx, positions, binding_affs, agent_idx_array,
change_flags)`.  The two random draws of the source are parameters: the
choice `n_choice` of von-Neumann neighbor (`np.random.randint(4)`) and the
fresh uniform acceptance draw `u` (`np.random.random()`).  Returns the new
`(positions, agent_idx_array, change_flags)`. -/
def displacement_trial_2d {F : Type} [LinearOrderedField F]
    (sqrt exp : F → F) (idx : ℕ) (positions : List (ℤ × ℤ))
    (binding_affs : List F) (sizes : ℤ × ℤ) (agent_idx_array : ℤ × ℤ → ℤ)
    (change_flags : List Bool) (n_choice : Fin 4) (u : F) :
    List (ℤ × ℤ) × (ℤ × ℤ → ℤ) × List Bool :=
  let current_pos := positions.getD idx (0, 0)
  let current_energy := total_interaction_energy_2d sqrt idx current_pos
    binding_affs sizes agent_idx_array
  let target_pos := trial_target_2d positions idx n_choice
  if 0 ≤ target_pos.1 ∧ target_pos.1 < sizes.1 ∧
      0 ≤ target_pos.2 ∧ target_pos.2 < sizes.2 then
    let target_idx := agent_idx_array target_pos
    if target_idx = -1 then
      let moved := displace_agent_2d positions idx target_pos agent_idx_array
      let target_energy := total_interaction_energy_2d sqrt idx target_pos
        binding_affs sizes moved.2
      if ¬ (u < exp (-(target_energy - current_energy))) then
        let back := displace_agent_2d moved.1 idx current_pos moved.2
        (back.1, back.2, change_flags)
      else
        (moved.1, moved.2, change_flags.set idx true)
    else (positions, agent_idx_array, change_flags)
  else (positions, agent_idx_array, change_flags)

/-! ### Substrate fields (src/lattics/substrates.py)

Float arithmetic is modelled over a generic field `F` so the definitions
stay computable; theorems instantiate `F := ℝ`. -/

/-- The `SubstrateInfo` dataclass.  Its only fields are the five below;
reading any other attribute name from it raises `AttributeError`. -/
structure SubstrateInfo (F : Type) where
  stype : String
  concentration : F
  passive_rate : F
  uptake_rate : F
  release_rate : F

/-- A node of a substrate field, as `update_nodes` reads it: the
`SubstrateInfo` entry for this substrate, plus the node's `volume` and
`position` attributes. -/
structure SubstrateNode (F : Type) where
  info : SubstrateInfo F
  volume : F
  position : ℤ × ℤ

/-- The `for n in all_nodes` loop of `HomogeneousSubstrateField.update_nodes`.
State threaded through the loop: the field concentration `c_f`, the
accumulators `sum_fixed` and `count_fixed`, and the updated nodes. -/
def hom_update_nodes_loop {F : Type} [Field F] (dt v_f : F) :
    List (SubstrateNode F) → F → F → Nat → F × F × Nat × List (SubstrateNode F)
  | [], c_f, sum_fixed, count_fixed => (c_f, sum_fixed, count_fixed, [])
  | n :: rest, c_f, sum_fixed, count_fixed =>
    if n.info.stype = "flux" then
      let k_p := n.info.passive_rate
      let k_u := n.info.uptake_rate
      let k_r := n.info.release_rate
      let c_n_cur := n.info.concentration
      let v_n := n.volume
      let c_f_cur := c_f
      let dn := (k_p * (c_f_cur - c_n_cur) + k_u * c_f_cur - k_r * c_n_cur) * dt
      let c_n_new := c_n_cur + dn / v_n
      let c_f_new := c_f_cur - dn / v_f
      let n' : SubstrateNode F := { n with info := { n.info with concentration := c_n_new } }
      let r := hom_update_nodes_loop dt v_f rest c_f_new sum_fixed count_fixed
      (r.1, r.2.1, r.2.2.1, n' :: r.2.2.2)
    else if n.info.stype = "fixed" then
      let r := hom_update_nodes_loop dt v_f rest c_f
        (sum_fixed + n.info.concentration) (count_fixed + 1)
      (r.1, r.2.1, r.2.2.1, n :: r.2.2.2)
    else
      let r := hom_update_nodes_loop dt v_f rest c_f sum_fixed count_fixed
      (r.1, r.2.1, r.2.2.1, n :: r.2.2.2)

/-- `HomogeneousSubstrateField.update_nodes(dt)`: iterate over
`static_nodes + dynamic_nodes` with `v_f` the domain volume, then if any
fixed node was seen replace the field value by `sum_fixed / count_fixed`.
Returns the new field concentration and the updated nodes. -/
def HomogeneousSubstrateField.update_nodes {F : Type} [Field F] (dt v_f : F)
    (static_nodes dynamic_nodes : List (SubstrateNode F)) (c_f : F) :
    F × List (SubstrateNode F) :=
  let r := hom_update_nodes_loop dt v_f (static_nodes ++ dynamic_nodes) c_f 0 0
  (if 0 < r.2.2.1 then r.2.1 / (r.2.2.1 : F) else r.1, r.2.2.2)

/-- The `for n in all_nodes` loop of `Lattice2DSubstrateField.update_nodes`.
The `fixed` branch is `self._concentration[*pos] = info.concentrattion`:
the right-hand side reads a nonexistent attribute of the `SubstrateInfo`
dataclass (the name is misspelled in the source), so it raises
`AttributeError` before the cell is written. -/
def latt_update_nodes_loop {F : Type} [Field F] (dt v_f : F) :
    List (SubstrateNode F) → ((ℤ × ℤ) → F) →
      Except Err (((ℤ × ℤ) → F) × List (SubstrateNode F))
  | [], conc => .ok (conc, [])
  | n :: rest, conc =>
    let pos := n.position
    if n.info.stype = "flux" then
      let k_p := n.info.passive_rate
      let k_u := n.info.uptake_rate
      let k_r := n.info.release_rate
      let c_n_cur := n.info.concentration
      let v_n := n.volume
      let c_f_cur := conc pos
      let dn := (k_p * (c_f_cur - c_n_cur) + k_u * c_f_cur - k_r * c_n_cur) * dt
      let c_n_new := c_n_cur + dn / v_n
      let c_f_new := c_f_cur - dn / v_f
      let n' : SubstrateNode F := { n with info := { n.info with concentration := c_n_new } }
      match latt_update_nodes_loop dt v_f rest (Function.update conc pos c_f_new) with
      | .error e => .error e
      | .ok (c, done) => .ok (c, n' :: done)
    else if n.info.stype = "fixed" then
      .error (.attributeError "concentrattion")
    else
      match latt_update_nodes_loop dt v_f rest conc with
      | .error e => .error e
      | .ok (c, done) => .ok (c, n :: done)

/-- A concrete one-node configuration used to instantiate theorems: a
`flux` node with concentration 0, passive rate 1, volume 1 at the origin. -/
def flux_unit_node : SubstrateNode ℝ := ⟨⟨"flux", 0, 1, 0, 0⟩, 1, (0, 0)⟩

/-- `Lattice2DSubstrateField.update_nodes(dt)`: `v_f = dx ** 2`, iterating
over `static_nodes + dynamic_nodes` on the concentration array. -/
def Lattice2DSubstrateField.update_nodes {F : Type} [Field F] (dt dx : F)
    (static_nodes dynamic_nodes : List (SubstrateNode F))
    (conc : (ℤ × ℤ) → F) :
    Except Err (((ℤ × ℤ) → F) × List (SubstrateNode F)) :=
  latt_update_nodes_loop dt (dx ^ 2) (static_nodes ++ dynamic_nodes) conc

/-! ### HomogeneousSpace (src/lattics/spaces.py)

One record models the pair (Simulation, HomogeneousSpace): `sim_agents` is
`Simulation._agents`, `agents` is `HomogeneousSpace._agents`, `attrs` maps
each agent id to its attribute dictionary, `volume` is the capacity,
`has_free_volume` the free-volume latch, `substrates` the per-substrate
dynamic-node lists and `next_id` the global `Agent.id_count`.  No models
are registered and the substrate fields' static nodes and concentrations
play no role in the embedded operations. -/

/-- A simulation holding a `HomogeneousSpace`. -/
structure HomogeneousSpace where
  sim_agents : List Nat
  agents : List Nat
  attrs : Nat → AgentAttrs
  volume : ℤ
  has_free_volume : Bool
  substrates : List (String × List Nat)
  next_id : Nat

/-- `sum([a.get_attribute('volume') for a in agents])`: `KeyError` if any
agent lacks the attribute. -/
def total_volume_list (attrs : Nat → AgentAttrs) : List Nat → Except Err ℤ
  | [] => .ok 0
  | a :: rest => do
    let v ← getAttr "volume" (attrs a).volume
    let r ← total_volume_list attrs rest
    .ok (v + r)

/-- `if not agent.has_attribute('division_pending'): set_attribute(...)`. -/
def init_division_pending (a : AgentAttrs) : AgentAttrs :=
  if a.division_pending = none then { a with division_pending := some false }
  else a

/-- `if not agent.has_attribute('division_completed'): set_attribute(...)`. -/
def init_division_completed (a : AgentAttrs) : AgentAttrs :=
  if a.division_completed = none then
    { a with division_completed := some false }
  else a

/-- `if not agent.has_attribute('remove_pending'): set_attribute(...)`. -/
def init_remove_pending (a : AgentAttrs) : AgentAttrs :=
  if a.remove_pending = none then { a with remove_pending := some false }
  else a

/-- `if not agent.has_attribute('volume'): set_attribute(...)`. -/
def init_volume (a : AgentAttrs) (volume : ℤ) : AgentAttrs :=
  if a.volume = none then { a with volume := some volume } else a

/-- `if not agent.has_attribute('position'): set_attribute(...)`. -/
def init_position (a : AgentAttrs) (position : ℤ × ℤ) : AgentAttrs :=
  if a.position = none then { a with position := some position } else a

/-- `if not agent.has_attribute('motility'): set_attribute(...)`. -/
def init_motility (a : AgentAttrs) (motility : ℚ) : AgentAttrs :=
  if a.motility = none then { a with motility := some motility } else a

/-- `if not agent.has_attribute('binding_affinity'): set_attribute(...)`. -/
def init_binding_affinity (a : AgentAttrs) (binding_affinity : ℚ) : AgentAttrs :=
  if a.binding_affinity = none then
    { a with binding_affinity := some binding_affinity }
  else a

/-- `if not agent.has_attribute('displacement_limit'): set_attribute(...)`. -/
def init_displacement_limit (a : AgentAttrs) (displacement_limit : ℤ) :
    AgentAttrs :=
  if a.displacement_limit = none then
    { a with displacement_limit := some displacement_limit }
  else a

/-- `HomogeneousSpace._initialize_attributes`: create the four attributes
the space tracks, only where absent. -/
def hom_init_attrs (a : AgentAttrs) (volume : ℤ) : AgentAttrs :=
  init_volume (init_remove_pending (init_division_completed
    (init_division_pending a))) volume

/-- `HomogeneousSpace.add_agent(agent, volume=0)`: compare the total volume
against the capacity (a warning only), append, initialize attributes. -/
def HomogeneousSpace.add_agent (s : HomogeneousSpace) (agent : Nat)
    (volume : ℤ) : Except Err HomogeneousSpace := do
  let _sum_volumes ← total_volume_list s.attrs s.agents
  .ok { s with agents := s.agents ++ [agent],
               attrs := Function.update s.attrs agent
                 (hom_init_attrs (s.attrs agent) volume) }

/-- `Simulation.add_agent` with a `HomogeneousSpace` installed and no
models: append to the simulation list, then delegate to the space (clones
are added with no parameters, so `volume` defaults to 0). -/
def Simulation.add_agent_hom (s : HomogeneousSpace) (agent : Nat) :
    Except Err HomogeneousSpace :=
  HomogeneousSpace.add_agent
    { s with sim_agents := s.sim_agents ++ [agent] } agent 0

/-- `HomogeneousSpace.remove_agent`: remove from the list (`list.remove`
raises `ValueError` if absent), then raise the free-volume latch if the
remaining total volume fits the capacity. -/
def HomogeneousSpace.remove_agent (s : HomogeneousSpace) (agent : Nat) :
    Except Err HomogeneousSpace := do
  if agent ∈ s.agents then
    let s1 := { s with agents := s.agents.erase agent }
    let sum_volumes ← total_volume_list s1.attrs s1.agents
    if sum_volumes ≤ s1.volume then
      .ok { s1 with has_free_volume := true }
    else
      .ok s1
  else
    .error (.valueError "list.remove(x): x not in list")

/-- `Simulation.remove_agent` with a `HomogeneousSpace`: remove from the
simulation list, then from the space. -/
def Simulation.remove_agent_hom (s : HomogeneousSpace) (agent : Nat) :
    Except Err HomogeneousSpace :=
  if agent ∈ s.sim_agents then
    HomogeneousSpace.remove_agent
      { s with sim_agents := s.sim_agents.erase agent } agent
  else
    .error (.valueError "list.remove(x): x not in list")

/-- The attribute store after `agent.set_attribute('division_pending',
False)`, `agent.set_attribute('division_completed', True)` and
`new_agent = agent.clone()` in `_process_agent_division`: the mother's
two flags are written, then the clone receives a copy of the mother's
(updated) attribute dictionary. -/
def division_attrs (attrs : Nat → AgentAttrs) (agent clone_id : Nat) :
    Nat → AgentAttrs :=
  let attrs1 := Function.update attrs agent
    { attrs agent with division_pending := some false,
                       division_completed := some true }
  Function.update attrs1 clone_id (attrs1 agent)

/-- `HomogeneousSpace._process_agent_division(agent)`: bail out if the
free-volume latch is down; otherwise clone when the total volume plus the
agent's own volume fits the capacity, else clear the latch. -/
def HomogeneousSpace.process_agent_division (s : HomogeneousSpace)
    (agent : Nat) : Except Err HomogeneousSpace := do
  if s.has_free_volume = false then
    .ok s
  else
    let sum_volumes ← total_volume_list s.attrs s.agents
    let agent_volume ← getAttr "volume" (s.attrs agent).volume
    if sum_volumes + agent_volume ≤ s.volume then
      let clone_id := s.next_id
      Simulation.add_agent_hom
        { s with attrs := division_attrs s.attrs agent clone_id,
                 next_id := s.next_id + 1 } clone_id
    else
      .ok { s with has_free_volume := false }

/-- The agent-clock-gated body of `HomogeneousSpace.update`: the
`for a in list(self._agents)` loop over a copy of the agent list taken at
entry: process division requests, then removal requests, then read
`substrate_info` and register the agent as a dynamic node of each named
substrate. -/
def hom_update_agent_loop : List Nat → HomogeneousSpace →
    Except Err HomogeneousSpace
  | [], s => .ok s
  | a :: rest, s => do
    let pending ← getAttr "division_pending" (s.attrs a).division_pending
    let s1 ← if pending then s.process_agent_division a else .ok s
    let rem ← getAttr "remove_pending" (s1.attrs a).remove_pending
    let s2 ← if rem then Simulation.remove_agent_hom s1 a else .ok s1
    let info ← getAttr "substrate_info" (s2.attrs a).substrate_info
    match register_dynamic_nodes a info s2.substrates with
    | .error e => .error e
    | .ok subs => hom_update_agent_loop rest { s2 with substrates := subs }

/-- The agent phase of `HomogeneousSpace.update(dt)` on a due agent tick:
clear every substrate's dynamic nodes, then run the agent loop. -/
def HomogeneousSpace.update_agent_phase (s : HomogeneousSpace) :
    Except Err HomogeneousSpace :=
  let s0 := { s with substrates := s.substrates.map (fun p => (p.1, [])) }
  hom_update_agent_loop s0.agents s0

/-- A concrete one-agent homogeneous space: agent 7 with volume 1,
capacity 5, latch up, next fresh id 8. -/
def hom_state0 : HomogeneousSpace :=
  { sim_agents := [7], agents := [7],
    attrs := fun _ => { volume := some 1 },
    volume := 5, has_free_volume := true, substrates := [], next_id := 8 }

/-- `hom_state0` with the two flags initialized (as the space's own
`add_agent` would leave them) but no `substrate_info` attribute. -/
def hom_state1 : HomogeneousSpace :=
  { hom_state0 with attrs := fun _ =>
      { division_pending := some false, remove_pending := some false,
        volume := some 1 } }

/-! ### Lattice2DSpace (src/lattics/spaces.py)

One record models the pair (Simulation, Lattice2DSpace).  `agent_layer`
is the `Nx×Ny` object array (`none` = empty cell), modelled as a function
on all of `ℤ × ℤ`; `dimensions` bounds the valid cells. -/

/-- A simulation holding a `Lattice2DSpace`. -/
structure Lattice2DSpace where
  sim_agents : List Nat
  agents : List Nat
  attrs : Nat → AgentAttrs
  dimensions : ℤ × ℤ
  grid_spacing : ℤ
  agent_layer : ℤ × ℤ → Option Nat
  substrates : List (String × List Nat)
  next_id : Nat

/-- `Lattice2DSpace.is_valid_position`. -/
def Lattice2DSpace.is_valid_position (s : Lattice2DSpace)
    (position : ℤ × ℤ) : Bool :=
  (0 ≤ position.1 && position.1 < s.dimensions.1) &&
  (0 ≤ position.2 && position.2 < s.dimensions.2)

/-- `Lattice2DSpace.is_empty_position`. -/
def Lattice2DSpace.is_empty_position (s : Lattice2DSpace)
    (position : ℤ × ℤ) : Bool :=
  s.agent_layer position = none

/-- `Lattice2DSpace._initialize_attributes`: create the eight attributes
the space tracks, only where absent. -/
def latt_init_attrs (a : AgentAttrs) (position : ℤ × ℤ) (volume : ℤ)
    (motility binding_affinity : ℚ) (displacement_limit : ℤ) : AgentAttrs :=
  init_displacement_limit (init_binding_affinity (init_motility (init_position
    (init_volume (init_remove_pending (init_division_completed
      (init_division_pending a))) volume) position) motility)
        binding_affinity) displacement_limit

/-- `Lattice2DSpace.add_agent(agent, position, volume=0, ...)`: validate
bounds and emptiness (raising `ValueError` before any mutation), then
append the agent, write the layer cell and initialize attributes. -/
def Lattice2DSpace.add_agent (s : Lattice2DSpace) (agent : Nat)
    (position : ℤ × ℤ) (volume : ℤ) (motility binding_affinity : ℚ)
    (displacement_limit : ℤ) : Except Err Lattice2DSpace :=
  if ¬ s.is_valid_position position then
    .error (.valueError "position out of bounds")
  else if ¬ s.is_empty_position position then
    .error (.valueError "position already occupied")
  else
    .ok { s with
      agents := s.agents ++ [agent]
      agent_layer := Function.update s.agent_layer position (some agent)
      attrs := Function.update s.attrs agent
        (latt_init_attrs (s.attrs agent) position volume motility
          binding_affinity displacement_limit) }

/-- `Simulation.add_agent` with a `Lattice2DSpace` installed and no models:
the agent is appended to `Simulation._agents` *before* the space validates
the position, so a `ValueError` from the space leaves the agent in the
simulation list.  Returns the post-call state together with the raised
exception, if any. -/
def Simulation.add_agent_lattice (s : Lattice2DSpace) (agent : Nat)
    (position : ℤ × ℤ) (volume : ℤ) (motility binding_affinity : ℚ)
    (displacement_limit : ℤ) : Lattice2DSpace × Option Err :=
  let s1 := { s with sim_agents := s.sim_agents ++ [agent] }
  match Lattice2DSpace.add_agent s1 agent position volume motility
      binding_affinity displacement_limit with
  | .error e => (s1, some e)
  | .ok s2 => (s2, none)

/-- `Lattice2DSpace.remove_agent`: read the agent's `position`, remove it
from the list, clear its layer cell. -/
def Lattice2DSpace.remove_agent (s : Lattice2DSpace) (agent : Nat) :
    Except Err Lattice2DSpace := do
  let position ← getAttr "position" (s.attrs agent).position
  if agent ∈ s.agents then
    .ok { s with agents := s.agents.erase agent,
                 agent_layer := Function.update s.agent_layer position none }
  else
    .error (.valueError "list.remove(x): x not in list")

/-- The layer/attribute swap applied for one entry of `change_flags` in
`_displacement_trials` (spaces.py lines 414-425): exchange the contents of
the two cells and update both occupants' `position` attributes. -/
def swap_cells (s : Lattice2DSpace) (pos_new pos_old : ℤ × ℤ) :
    Lattice2DSpace :=
  let agent_new := s.agent_layer pos_new
  let agent_old := s.agent_layer pos_old
  let layer1 := Function.update s.agent_layer pos_new agent_old
  let layer2 := Function.update layer1 pos_old agent_new
  let attrs1 := match agent_new with
    | some x => Function.update s.attrs x
        { s.attrs x with position := some pos_old }
    | none => s.attrs
  let attrs2 := match agent_old with
    | some y => Function.update attrs1 y
        { attrs1 y with position := some pos_new }
    | none => attrs1
  { s with agent_layer := layer2, attrs := attrs2 }

/-- One accepted move of the apply phase of `_displacement_trials`:
`pos_old` is the agent's *current* `position` attribute (re-read at apply
time), `pos_new` the trial result.  An agent without the attribute is
skipped (the source would raise `KeyError`; unreachable for agents of the
space). -/
def apply_displacement (s : Lattice2DSpace) (a : Nat) (pos_new : ℤ × ℤ) :
    Lattice2DSpace :=
  match (s.attrs a).position with
  | none => s
  | some pos_old => swap_cells s pos_new pos_old

/-- The whole apply phase: the accepted moves in index order. -/
def apply_displacements (s : Lattice2DSpace) :
    List (Nat × (ℤ × ℤ)) → Lattice2DSpace
  | [] => s
  | (a, p) :: rest => apply_displacements (apply_displacement s a p) rest

/-! #### Bresenham path (src/lattics/numba_functions.py, bresenham_2d) -/

/-- The `while x != x2` loop of `bresenham_2d` (the `dy < dx` branch),
with the iteration count (`|x2 - x1|`) as fuel. -/
def bresenham_loop_x (sx sy dy dx : ℤ) : Nat → ℤ → ℤ → ℤ → List (ℤ × ℤ)
  | 0, _, _, _ => []
  | n + 1, x, y, error =>
    let e1 := error - dy
    if e1 < 0 then
      (x, y) :: bresenham_loop_x sx sy dy dx n (x + sx) (y + sy) (e1 + dx)
    else
      (x, y) :: bresenham_loop_x sx sy dy dx n (x + sx) y e1

/-- The `while y != y2` loop of `bresenham_2d` (the `dy ≥ dx` branch). -/
def bresenham_loop_y (sx sy dy dx : ℤ) : Nat → ℤ → ℤ → ℤ → List (ℤ × ℤ)
  | 0, _, _, _ => []
  | n + 1, x, y, error =>
    let e1 := error - dx
    if e1 < 0 then
      (x, y) :: bresenham_loop_y sx sy dy dx n (x + sx) (y + sy) (e1 + dy)
    else
      (x, y) :: bresenham_loop_y sx sy dy dx n x (y + sy) e1

/-- `bresenham_2d(x1, y1, x2, y2)`: the grid path from `(x1,y1)` to
`(x2,y2)`; the final `path[idx] = [x2, y2]` is the appended singleton. -/
def bresenham_2d (x1 y1 x2 y2 : ℤ) : List (ℤ × ℤ) :=
  let dx := |x2 - x1|
  let dy := |y2 - y1|
  let sx : ℤ := if x1 < x2 then 1 else -1
  let sy : ℤ := if y1 < y2 then 1 else -1
  if dy < dx then
    bresenham_loop_x sx sy dy dx dx.toNat x1 y1 (dx / 2) ++ [(x2, y2)]
  else
    bresenham_loop_y sx sy dy dx dy.toNat x1 y1 (dy / 2) ++ [(x2, y2)]

/-! #### Division with push (src/lattics/spaces.py, _perform_cell_division) -/

/-- One iteration of the push loop: copy the occupant of `src` into `dst`
and update its `position` attribute.  (If `src` were empty the source
would raise `AttributeError` on `None`; this cannot happen for a
Bresenham path to a *nearest* empty cell, whose interior cells are all
strictly closer to the mother and hence occupied.) -/
def push_step (s : Lattice2DSpace) (src dst : ℤ × ℤ) : Lattice2DSpace :=
  let agent_to_move := s.agent_layer src
  match agent_to_move with
  | some b =>
    { s with agent_layer := Function.update s.agent_layer dst (some b)
             attrs := Function.update s.attrs b
               { s.attrs b with position := some dst } }
  | none => { s with agent_layer := Function.update s.agent_layer dst none }

/-- The `for i in range(path.shape[0] - 2, 0, -1)` push loop over a path
segment: the pair nearest the target is processed first, i.e. innermost. -/
def push_along (s : Lattice2DSpace) : List (ℤ × ℤ) → Lattice2DSpace
  | [] => s
  | [_] => s
  | p :: q :: rest => push_step (push_along s (q :: rest)) p q

/-- Empty one cell of the layer (`self._agent_layer[...] = None`). -/
def clear_cell (s : Lattice2DSpace) (p : ℤ × ℤ) : Lattice2DSpace :=
  { s with agent_layer := Function.update s.agent_layer p none }

/-- The same path traversal expressed as successive moves into the empty
cell (each a `swap_cells` with the empty target); proved equal to
`push_along` followed by clearing the head cell. -/
def moves_along (s : Lattice2DSpace) : List (ℤ × ℤ) → Lattice2DSpace
  | [] => s
  | [_] => s
  | p :: q :: rest => swap_cells (moves_along s (q :: rest)) q p

/-- `Lattice2DSpace._perform_cell_division(agent)` after the target cell
has been selected.  The selection itself — the scipy Euclidean distance
transform over the coverage mask, the `min_distance ≤ displacement_limit`
test and the uniform choice among minimizing cells — computes with floats
and is abstracted into the `target` parameter; `target` is always an
*empty* cell at minimal Euclidean distance from the mother.  Everything
from `bresenham_2d` on is embedded: push the intermediate agents one step
toward the target, free the cell adjacent to the mother, set the
division flags, clone, and add the clone there via `Simulation.add_agent`. -/
def Lattice2DSpace.perform_cell_division (s : Lattice2DSpace) (agent : Nat)
    (target : ℤ × ℤ) : Except Err Lattice2DSpace := do
  let current ← getAttr "position" (s.attrs agent).position
  let path := bresenham_2d current.1 current.2 target.1 target.2
  let s1 := if 2 < path.length then push_along s (path.drop 1) else s
  let clone_position := path.getD 1 (0, 0)
  let s2 := clear_cell s1 clone_position
  let mother_attrs := { s2.attrs agent with division_pending := some false,
                                            division_completed := some true }
  let s3 := { s2 with attrs := Function.update s2.attrs agent mother_attrs }
  let clone_id := s3.next_id
  let clone_attrs := { mother_attrs with position := some clone_position }
  let s4 := { s3 with
    attrs := Function.update s3.attrs clone_id clone_attrs
    next_id := s3.next_id + 1 }
  Lattice2DSpace.add_agent
    { s4 with sim_agents := s4.sim_agents ++ [clone_id] }
    clone_id clone_position 0 0 0 1

/-- The dynamic-node rebuild loop of `Lattice2DSpace.update` (spaces.py
lines 346-349): read `substrate_info` of every agent of the space and
register it with each named substrate. -/
def latt_node_rebuild_loop : List Nat → Lattice2DSpace →
    Except Err Lattice2DSpace
  | [], s => .ok s
  | a :: rest, s => do
    let info ← getAttr "substrate_info" (s.attrs a).substrate_info
    match register_dynamic_nodes a info s.substrates with
    | .error e => .error e
    | .ok subs => latt_node_rebuild_loop rest { s with substrates := subs }

/-- The dynamic-node rebuild phase of `Lattice2DSpace.update` on a due
agent tick: clear every substrate's dynamic nodes, then run the loop. -/
def Lattice2DSpace.node_rebuild (s : Lattice2DSpace) :
    Except Err Lattice2DSpace :=
  let s0 := { s with substrates := s.substrates.map (fun p => (p.1, [])) }
  latt_node_rebuild_loop s0.agents s0

/-- The state of the `Lattice2DSpace` placement data after one of its
mutating operations, with the operation's preconditions: `add` covers
`add_agent` on a fresh agent, `remove` covers `remove_agent`, `displace`
covers the apply phase of `_displacement_trials` for an arbitrary list of
accepted moves, and `divide` covers `_perform_cell_division` for an
arbitrary selected empty target cell. -/
inductive LatticeStep : Lattice2DSpace → Lattice2DSpace → Prop
  | add (s s' : Lattice2DSpace) (agent : Nat) (position : ℤ × ℤ)
      (volume : ℤ) (motility binding_affinity : ℚ) (displacement_limit : ℤ)
      (hfresh_list : agent ∉ s.agents)
      (hfresh_layer : ∀ p, s.agent_layer p ≠ some agent)
      (hpos_attr : (s.attrs agent).position = none ∨
        (s.attrs agent).position = some position)
      (hok : Lattice2DSpace.add_agent s agent position volume motility
        binding_affinity displacement_limit = .ok s') :
      LatticeStep s s'
  | remove (s s' : Lattice2DSpace) (agent : Nat)
      (hok : Lattice2DSpace.remove_agent s agent = .ok s') :
      LatticeStep s s'
  | displace (s : Lattice2DSpace) (moves : List (Nat × (ℤ × ℤ))) :
      LatticeStep s (apply_displacements s moves)
  | divide (s s' : Lattice2DSpace) (agent : Nat) (target p0 : ℤ × ℤ)
      (hmem : agent ∈ s.agents)
      (hm : (s.attrs agent).position = some p0)
      (hempty : s.agent_layer target = none)
      (hfresh_list : s.next_id ∉ s.agents)
      (hfresh_layer : ∀ p, s.agent_layer p ≠ some s.next_id)
      (hok : Lattice2DSpace.perform_cell_division s agent target = .ok s') :
      LatticeStep s s'

/-- A fresh empty 2-by-2 lattice space: a concrete instance for
evaluating the placement invariant. -/
def latt_state0 : Lattice2DSpace :=
  { sim_agents := [], agents := [], attrs := fun _ => {},
    dimensions := (2, 2), grid_spacing := 1,
    agent_layer := fun _ => none, substrates := [], next_id := 0 }

/-- `latt_state0` after `add_agent 0 (0, 0)`. -/
def latt_state1 : Lattice2DSpace :=
  { latt_state0 with
    agents := latt_state0.agents ++ [0]
    agent_layer := Function.update latt_state0.agent_layer (0, 0) (some 0)
    attrs := Function.update latt_state0.attrs 0
      (latt_init_attrs (latt_state0.attrs 0) (0, 0) 0 0 0 1) }

/-- The conservation-of-placement invariant of a `Lattice2DSpace`: the
agent list has no duplicates, every agent of the space has a `position`
attribute and sits at that cell of the layer, and every occupied cell of
the layer holds an agent of the space whose `position` attribute is that
cell.  It follows that agents ↔ occupied cells is a bijection. -/
def Placement (s : Lattice2DSpace) : Prop :=
  s.agents.Nodup ∧
  (∀ a ∈ s.agents, ∃ p, (s.attrs a).position = some p ∧
    s.agent_layer p = some a) ∧
  (∀ p a, s.agent_layer p = some a → a ∈ s.agents ∧
    (s.attrs a).position = some p)

end Lattics

namespace Lattics

/-! ## Theorems -/

/-- At distinct positions the pairwise energy is finite and agrees with its
`F`-valued version. -/
theorem pairwise_interaction_energy_2d_eq_coe {F : Type} [LinearOrderedField F]
    (sqrt : F → F) (p1 : ℤ × ℤ) (b1 : F) (p2 : ℤ × ℤ) (b2 : F)
    (h : p1 ≠ p2) :
    pairwise_interaction_energy_2d sqrt p1 b1 p2 b2
      = ((pairwise_interaction_energy_fin_2d sqrt p1 b1 p2 b2 : F) : WithTop F) := by
  unfold pairwise_interaction_energy_2d pairwise_interaction_energy_fin_2d
  have hd : ¬ (|p1.1 - p2.1| + |p1.2 - p2.2| = 0) := by
    intro h0
    rcases (add_eq_zero_iff_of_nonneg (abs_nonneg _) (abs_nonneg _)).1 h0 with ⟨h1, h2⟩
    exact h (Prod.ext (sub_eq_zero.1 (abs_eq_zero.1 h1)) (sub_eq_zero.1 (abs_eq_zero.1 h2)))
  simp only [hd, if_false]
  split_ifs <;> rfl

/-- The `WithTop F` and `F` valued total-energy accumulations agree as long
as every offset in the neighborhood list is nonzero. -/
theorem total_energy_loop_wt_eq_coe {F : Type} [LinearOrderedField F]
    (sqrt : F → F) (agent_pos : ℤ × ℤ) (agent_bind : F) (bind_affs : List F)
    (sizes : ℤ × ℤ) (arr : ℤ × ℤ → ℤ) :
    ∀ (l : List (ℤ × ℤ)), (∀ d ∈ l, d ≠ (0, 0)) → ∀ (e : F),
      total_energy_loop_wt sqrt agent_pos agent_bind bind_affs sizes arr l
          ((e : F) : WithTop F)
        = ((total_energy_loop sqrt agent_pos agent_bind bind_affs sizes arr l e : F) :
            WithTop F)
  | [], _, e => rfl
  | d :: rest, hl, e => by
    have hne : agent_pos ≠ (agent_pos.1 + d.1, agent_pos.2 + d.2) := by
      intro hp
      apply hl d (List.mem_cons_self d rest)
      have h1 : agent_pos.1 = agent_pos.1 + d.1 := congrArg Prod.fst hp
      have h2 : agent_pos.2 = agent_pos.2 + d.2 := congrArg Prod.snd hp
      exact Prod.ext (by omega) (by omega)
    have hrest : ∀ x ∈ rest, x ≠ (0, 0) := fun x hx => hl x (List.mem_cons_of_mem d hx)
    unfold total_energy_loop_wt total_energy_loop
    simp only [pairwise_interaction_energy_2d_eq_coe sqrt agent_pos agent_bind _ _ hne,
      ← WithTop.coe_add]
    rw [← apply_ite (fun x : F => (x : WithTop F)),
      ← apply_ite (fun x : F => (x : WithTop F))]
    exact total_energy_loop_wt_eq_coe sqrt agent_pos agent_bind bind_affs sizes arr
      rest hrest _

/-- No `np.Inf` arises while accumulating the total interaction energy: the
Moore offsets are all nonzero, so the two versions of
`total_interaction_energy_2d` agree. -/
theorem total_interaction_energy_2d_eq_coe {F : Type} [LinearOrderedField F]
    (sqrt : F → F) (idx : ℕ) (agent_pos : ℤ × ℤ) (bind_affs : List F)
    (sizes : ℤ × ℤ) (arr : ℤ × ℤ → ℤ) :
    total_interaction_energy_wt_2d sqrt idx agent_pos bind_affs sizes arr
      = ((total_interaction_energy_2d sqrt idx agent_pos bind_affs sizes arr : F) :
          WithTop F) := by
  have h0 : ((0 : F) : WithTop F) = ((0 : F) : WithTop F) := rfl
  exact total_energy_loop_wt_eq_coe sqrt agent_pos _ bind_affs sizes arr
    (get_neighborhood_2d "moore") (by decide) 0

/-- A cell swap preserves the placement invariant. -/
theorem swap_cells_placement (s : Lattice2DSpace) (pn po : ℤ × ℤ)
    (h : Placement s) : Placement (swap_cells s pn po) := by
  obtain ⟨hnd, h1, h2⟩ := h
  unfold swap_cells Placement
  rcases heqn : s.agent_layer pn with _ | x <;>
    rcases heqo : s.agent_layer po with _ | y <;>
    simp only [heqn, heqo] <;> (try dsimp only)
  · -- both cells empty
    refine ⟨hnd, ?_, ?_⟩
    · intro a ha
      obtain ⟨p, hp, hL⟩ := h1 a ha
      refine ⟨p, hp, ?_⟩
      have hppn : p ≠ pn := fun hc => by rw [hc, heqn] at hL; exact Option.noConfusion hL
      have hppo : p ≠ po := fun hc => by rw [hc, heqo] at hL; exact Option.noConfusion hL
      rw [Function.update_noteq hppo, Function.update_noteq hppn]
      exact hL
    · intro p b hb
      rcases eq_or_ne p po with rfl | hpo
      · rw [Function.update_same] at hb
        exact Option.noConfusion hb
      · rw [Function.update_noteq hpo] at hb
        rcases eq_or_ne p pn with rfl | hpn
        · rw [Function.update_same] at hb
          exact Option.noConfusion hb
        · rw [Function.update_noteq hpn] at hb
          exact h2 p b hb
  · -- pn empty, po holds y : move y to pn
    obtain ⟨hymem, hypos⟩ := h2 po y heqo
    have hpnpo : pn ≠ po := fun hc => by rw [hc, heqo] at heqn; exact Option.noConfusion heqn
    refine ⟨hnd, ?_, ?_⟩
    · intro a ha
      rcases eq_or_ne a y with rfl | hay
      · refine ⟨pn, ?_, ?_⟩
        · rw [Function.update_same]
        · rw [Function.update_noteq hpnpo, Function.update_same]
      · obtain ⟨p, hp, hL⟩ := h1 a ha
        have hppn : p ≠ pn := fun hc => by rw [hc, heqn] at hL; exact Option.noConfusion hL
        have hppo : p ≠ po := fun hc => by
          rw [hc, heqo] at hL
          exact hay (Option.some.inj hL).symm
        refine ⟨p, ?_, ?_⟩
        · rw [Function.update_noteq hay]
          exact hp
        · rw [Function.update_noteq hppo, Function.update_noteq hppn]
          exact hL
    · intro p b hb
      rcases eq_or_ne p po with rfl | hpo
      · rw [Function.update_same] at hb
        exact Option.noConfusion hb
      · rw [Function.update_noteq hpo] at hb
        rcases eq_or_ne p pn with rfl | hpn
        · rw [Function.update_same] at hb
          cases hb
          exact ⟨hymem, by rw [Function.update_same]⟩
        · rw [Function.update_noteq hpn] at hb
          obtain ⟨hbmem, hbpos⟩ := h2 p b hb
          have hby : b ≠ y := by
            intro hc
            subst hc
            rw [hypos] at hbpos
            exact hpo (Option.some.inj hbpos).symm
            -- positions agree forces p = po
          exact ⟨hbmem, by rw [Function.update_noteq hby]; exact hbpos⟩
  · -- pn holds x, po empty : move x to po
    obtain ⟨hxmem, hxpos⟩ := h2 pn x heqn
    have hpnpo : pn ≠ po := fun hc => by rw [hc, heqo] at heqn; exact Option.noConfusion heqn
    refine ⟨hnd, ?_, ?_⟩
    · intro a ha
      rcases eq_or_ne a x with rfl | hax
      · exact ⟨po, by rw [Function.update_same], by rw [Function.update_same]⟩
      · obtain ⟨p, hp, hL⟩ := h1 a ha
        have hppn : p ≠ pn := fun hc => by
          rw [hc, heqn] at hL
          exact hax (Option.some.inj hL).symm
        have hppo : p ≠ po := fun hc => by rw [hc, heqo] at hL; exact Option.noConfusion hL
        refine ⟨p, by rw [Function.update_noteq hax]; exact hp, ?_⟩
        rw [Function.update_noteq hppo, Function.update_noteq hppn]
        exact hL
    · intro p b hb
      rcases eq_or_ne p po with rfl | hpo
      · rw [Function.update_same] at hb
        cases hb
        exact ⟨hxmem, by rw [Function.update_same]⟩
      · rw [Function.update_noteq hpo] at hb
        rcases eq_or_ne p pn with rfl | hpn
        · rw [Function.update_same] at hb
          exact Option.noConfusion hb
        · rw [Function.update_noteq hpn] at hb
          obtain ⟨hbmem, hbpos⟩ := h2 p b hb
          have hbx : b ≠ x := by
            intro hc
            subst hc
            rw [hxpos] at hbpos
            exact hpn (Option.some.inj hbpos).symm
          exact ⟨hbmem, by rw [Function.update_noteq hbx]; exact hbpos⟩
  · -- both occupied : exchange x and y
    obtain ⟨hxmem, hxpos⟩ := h2 pn x heqn
    obtain ⟨hymem, hypos⟩ := h2 po y heqo
    rcases eq_or_ne pn po with rfl | hpnpo
    · -- same cell: x = y and the swap is the identity on that cell
      have hxy : x = y := by
        rw [heqn] at heqo
        exact Option.some.inj heqo
      subst hxy
      refine ⟨hnd, ?_, ?_⟩
      · intro a ha
        rcases eq_or_ne a x with rfl | hax
        · exact ⟨pn, by rw [Function.update_same], by rw [Function.update_same]⟩
        · obtain ⟨p, hp, hL⟩ := h1 a ha
          have hppn : p ≠ pn := fun hc => by
            rw [hc, heqn] at hL
            exact hax (Option.some.inj hL).symm
          refine ⟨p, ?_, ?_⟩
          · rw [Function.update_noteq hax]
            rw [Function.update_noteq hax]
            exact hp
          · rw [Function.update_noteq hppn, Function.update_noteq hppn]
            exact hL
      · intro p b hb
        rcases eq_or_ne p pn with rfl | hppn
        · rw [Function.update_same] at hb
          cases hb
          exact ⟨hxmem, by rw [Function.update_same]⟩
        · rw [Function.update_noteq hppn, Function.update_noteq hppn] at hb
          obtain ⟨hbmem, hbpos⟩ := h2 p b hb
          have hbx : b ≠ x := by
            intro hc
            subst hc
            rw [hxpos] at hbpos
            exact hppn (Option.some.inj hbpos).symm
          exact ⟨hbmem, by rw [Function.update_noteq hbx, Function.update_noteq hbx]; exact hbpos⟩
    · -- distinct cells: x ≠ y
      have hxy : x ≠ y := by
        intro hc
        subst hc
        rw [hxpos] at hypos
        exact hpnpo (Option.some.inj hypos)
      refine ⟨hnd, ?_, ?_⟩
      · intro a ha
        rcases eq_or_ne a y with rfl | hay
        · refine ⟨pn, by rw [Function.update_same], ?_⟩
          rw [Function.update_noteq hpnpo, Function.update_same]
        · rcases eq_or_ne a x with rfl | hax
          · refine ⟨po, ?_, by rw [Function.update_same]⟩
            rw [Function.update_noteq hay, Function.update_same]
          · obtain ⟨p, hp, hL⟩ := h1 a ha
            have hppn : p ≠ pn := fun hc => by
              rw [hc, heqn] at hL
              exact hax (Option.some.inj hL).symm
            have hppo : p ≠ po := fun hc => by
              rw [hc, heqo] at hL
              exact hay (Option.some.inj hL).symm
            refine ⟨p, ?_, ?_⟩
            · rw [Function.update_noteq hay, Function.update_noteq hax]
              exact hp
            · rw [Function.update_noteq hppo, Function.update_noteq hppn]
              exact hL
      · intro p b hb
        rcases eq_or_ne p po with rfl | hpo
        · rw [Function.update_same] at hb
          cases hb
          refine ⟨hxmem, ?_⟩
          rw [Function.update_noteq hxy, Function.update_same]
        · rw [Function.update_noteq hpo] at hb
          rcases eq_or_ne p pn with rfl | hpn
          · rw [Function.update_same] at hb
            cases hb
            exact ⟨hymem, by rw [Function.update_same]⟩
          · rw [Function.update_noteq hpn] at hb
            obtain ⟨hbmem, hbpos⟩ := h2 p b hb
            have hbx : b ≠ x := by
              intro hc
              subst hc
              rw [hxpos] at hbpos
              exact hpn (Option.some.inj hbpos).symm
            have hby : b ≠ y := by
              intro hc
              subst hc
              rw [hypos] at hbpos
              exact hpo (Option.some.inj hbpos).symm
            refine ⟨hbmem, ?_⟩
            rw [Function.update_noteq hby, Function.update_noteq hbx]
            exact hbpos

/-- One apply-phase move preserves the placement invariant. -/
theorem apply_displacement_placement (s : Lattice2DSpace) (a : Nat)
    (pn : ℤ × ℤ) (h : Placement s) : Placement (apply_displacement s a pn) := by
  unfold apply_displacement
  rcases (s.attrs a).position with _ | po
  · exact h
  · exact swap_cells_placement s pn po h

/-- The whole apply phase of `_displacement_trials` preserves the placement
invariant, for every list of accepted moves. -/
theorem apply_displacements_placement (moves : List (Nat × (ℤ × ℤ))) :
    ∀ (s : Lattice2DSpace), Placement s →
      Placement (apply_displacements s moves) := by
  induction moves with
  | nil => exact fun s h => h
  | cons m rest ih =>
    intro s h
    exact ih _ (apply_displacement_placement s m.1 m.2 h)

/-- `push_along` only writes layer cells in the tail of its path. -/
theorem push_along_layer_frame (l : List (ℤ × ℤ)) :
    ∀ (s : Lattice2DSpace) (c : ℤ × ℤ), c ∉ l.drop 1 →
      (push_along s l).agent_layer c = s.agent_layer c := by
  induction l with
  | nil => intro s c _; rfl
  | cons p rest ih =>
    intro s c hc
    cases rest with
    | nil => rfl
    | cons q rest' =>
      have hcq : c ≠ q := fun hcq => hc (hcq ▸ List.mem_cons_self q rest')
      have hc' : c ∉ (q :: rest').drop 1 :=
        fun hmem => hc (List.mem_cons_of_mem q hmem)
      show (push_step (push_along s (q :: rest')) p q).agent_layer c = _
      unfold push_step
      rcases (push_along s (q :: rest')).agent_layer p with _ | b
      · rw [show ∀ t : Lattice2DSpace, ∀ f,
          ({ t with agent_layer := f } : Lattice2DSpace).agent_layer = f from fun _ _ => rfl]
        rw [Function.update_noteq hcq]
        exact ih s c hc'
      · rw [show ∀ t : Lattice2DSpace, ∀ f g,
          ({ t with agent_layer := f, attrs := g } : Lattice2DSpace).agent_layer = f from
            fun _ _ _ => rfl]
        rw [Function.update_noteq hcq]
        exact ih s c hc'

/-- `moves_along` only writes layer cells in its path. -/
theorem moves_along_layer_frame (l : List (ℤ × ℤ)) :
    ∀ (s : Lattice2DSpace) (c : ℤ × ℤ), c ∉ l →
      (moves_along s l).agent_layer c = s.agent_layer c := by
  induction l with
  | nil => intro s c _; rfl
  | cons p rest ih =>
    intro s c hc
    cases rest with
    | nil => rfl
    | cons q rest' =>
      have hcp : c ≠ p := fun h => hc (h ▸ List.mem_cons_self p (q :: rest'))
      have hcq : c ≠ q := fun h => hc (by
        rw [h]
        exact List.mem_cons_of_mem p (List.mem_cons_self q rest'))
      have hc' : c ∉ q :: rest' := fun h => hc (List.mem_cons_of_mem p h)
      show (swap_cells (moves_along s (q :: rest')) q p).agent_layer c = _
      unfold swap_cells
      dsimp only
      rw [Function.update_noteq hcp, Function.update_noteq hcq]
      exact ih s c hc'

/-- The push loop of `_perform_cell_division` followed by clearing the
head cell equals the chain of moves-into-the-empty-cell along the path,
provided the path is duplicate-free and ends at an empty cell. -/
theorem push_clear_eq_moves :
    ∀ (l : List (ℤ × ℤ)) (s : Lattice2DSpace), l ≠ [] → l.Nodup →
      s.agent_layer (l.getLastD (0, 0)) = none →
      clear_cell (push_along s l) (l.headD (0, 0)) = moves_along s l
  | [], _, hne, _, _ => absurd rfl hne
  | [p], s, _, _, hlast => by
    show clear_cell s p = s
    unfold clear_cell
    have hlast' : s.agent_layer p = none := by
      simpa using hlast
    rw [show Function.update s.agent_layer p none = s.agent_layer from by
      rw [← hlast']
      exact Function.update_eq_self p s.agent_layer]
  | p :: q :: rest, s, _, hnd, hlast => by
    have hnd' : (q :: rest).Nodup := (List.nodup_cons.1 hnd).2
    have hpq : p ∉ q :: rest := (List.nodup_cons.1 hnd).1
    have hpq1 : p ≠ q := fun h => hpq (by rw [h]; exact List.mem_cons_self q rest)
    have hlast' : s.agent_layer ((q :: rest).getLastD (0, 0)) = none := by
      rw [show ((q :: rest).getLastD (0, 0)) = ((p :: q :: rest).getLastD (0, 0)) from by
        simp only [List.getLastD_cons]]
      exact hlast
    have ih' : clear_cell (push_along s (q :: rest)) q = moves_along s (q :: rest) :=
      push_clear_eq_moves (q :: rest) s (by simp) hnd' hlast'
    show clear_cell (push_step (push_along s (q :: rest)) p q) p
      = swap_cells (moves_along s (q :: rest)) q p
    rw [← ih']
    rcases hb : (push_along s (q :: rest)).agent_layer p with _ | x <;>
      simp only [push_step, swap_cells, clear_cell, hb, Function.update_same,
        Function.update_noteq hpq1] <;>
      rw [Function.update_idem]

/-- The move chain preserves the placement invariant. -/
theorem moves_along_placement (l : List (ℤ × ℤ)) :
    ∀ (s : Lattice2DSpace), Placement s → Placement (moves_along s l) := by
  induction l with
  | nil => exact fun s h => h
  | cons p rest ih =>
    intro s h
    cases rest with
    | nil => exact h
    | cons q rest' => exact swap_cells_placement _ q p (ih s h)

/-- A swap writes only values already present in the layer: an id that
occupies no cell still occupies no cell afterwards. -/
theorem swap_cells_not_some (s : Lattice2DSpace) (pn po : ℤ × ℤ) (b : Nat)
    (h : ∀ c, s.agent_layer c ≠ some b) :
    ∀ c, (swap_cells s pn po).agent_layer c ≠ some b := by
  intro c
  unfold swap_cells
  dsimp only
  rcases eq_or_ne c po with rfl | hco
  · rw [Function.update_same]
    exact h pn
  · rw [Function.update_noteq hco]
    rcases eq_or_ne c pn with rfl | hcn
    · rw [Function.update_same]
      exact h po
    · rw [Function.update_noteq hcn]
      exact h c

/-- `moves_along` never introduces a fresh id into the layer. -/
theorem moves_along_not_some (l : List (ℤ × ℤ)) :
    ∀ (s : Lattice2DSpace) (b : Nat), (∀ c, s.agent_layer c ≠ some b) →
      ∀ c, (moves_along s l).agent_layer c ≠ some b := by
  induction l with
  | nil => exact fun s b h => h
  | cons p rest ih =>
    intro s b h
    cases rest with
    | nil => exact h
    | cons q rest' => exact swap_cells_not_some _ q p b (ih s b h)

/-- `moves_along` changes neither the agent lists, the ids, nor the
attribute of any agent's non-position fields; in particular the `agents`
list is untouched. -/
theorem moves_along_agents (l : List (ℤ × ℤ)) :
    ∀ (s : Lattice2DSpace), (moves_along s l).agents = s.agents ∧
      (moves_along s l).sim_agents = s.sim_agents ∧
      (moves_along s l).next_id = s.next_id ∧
      (moves_along s l).dimensions = s.dimensions := by
  induction l with
  | nil => exact fun s => ⟨rfl, rfl, rfl, rfl⟩
  | cons p rest ih =>
    intro s
    cases rest with
    | nil => exact ⟨rfl, rfl, rfl, rfl⟩
    | cons q rest' =>
      obtain ⟨h1, h2, h3, h4⟩ := ih s
      show ((swap_cells (moves_along s (q :: rest')) q p).agents = _) ∧ _
      unfold swap_cells
      dsimp only
      exact ⟨by rcases (moves_along s (q :: rest')).agent_layer q <;>
               rcases (moves_along s (q :: rest')).agent_layer p <;> exact h1,
             by rcases (moves_along s (q :: rest')).agent_layer q <;>
               rcases (moves_along s (q :: rest')).agent_layer p <;> exact h2,
             by rcases (moves_along s (q :: rest')).agent_layer q <;>
               rcases (moves_along s (q :: rest')).agent_layer p <;> exact h3,
             by rcases (moves_along s (q :: rest')).agent_layer q <;>
               rcases (moves_along s (q :: rest')).agent_layer p <;> exact h4⟩

/-- Changing only non-`position` attribute fields preserves the placement
invariant. -/
theorem placement_attrs_congr (s : Lattice2DSpace) (f : Nat → AgentAttrs)
    (hpos : ∀ a, (f a).position = (s.attrs a).position) (h : Placement s) :
    Placement { s with attrs := f } := by
  obtain ⟨hnd, h1, h2⟩ := h
  unfold Placement
  dsimp only
  refine ⟨hnd, ?_, ?_⟩
  · intro a ha
    obtain ⟨p, hp, hL⟩ := h1 a ha
    exact ⟨p, by rw [hpos]; exact hp, hL⟩
  · intro p b hb
    obtain ⟨hm, hp⟩ := h2 p b hb
    exact ⟨hm, by rw [hpos]; exact hp⟩

/-- Rewriting the attributes of an id that is neither in the agent list
nor anywhere in the layer preserves the placement invariant. -/
theorem placement_update_fresh_attrs (s : Lattice2DSpace) (b : Nat)
    (v : AgentAttrs) (hbl : b ∉ s.agents)
    (hlay : ∀ p, s.agent_layer p ≠ some b) (h : Placement s) :
    Placement { s with attrs := Function.update s.attrs b v } := by
  obtain ⟨hnd, h1, h2⟩ := h
  unfold Placement
  dsimp only
  refine ⟨hnd, ?_, ?_⟩
  · intro a ha
    obtain ⟨p, hp, hL⟩ := h1 a ha
    have hab : a ≠ b := fun hc => hbl (hc ▸ ha)
    exact ⟨p, by rw [Function.update_noteq hab]; exact hp, hL⟩
  · intro p c hc
    obtain ⟨hm, hp⟩ := h2 p c hc
    have hcb : c ≠ b := fun hce => hlay p (hce ▸ hc)
    exact ⟨hm, by rw [Function.update_noteq hcb]; exact hp⟩

/-- The flag/volume initializers do not touch the `position` field. -/
theorem init_division_pending_position (a : AgentAttrs) :
    (init_division_pending a).position = a.position := by
  unfold init_division_pending
  split_ifs <;> rfl

/-- `init_division_completed` does not touch the `position` field. -/
theorem init_division_completed_position (a : AgentAttrs) :
    (init_division_completed a).position = a.position := by
  unfold init_division_completed
  split_ifs <;> rfl

/-- `init_remove_pending` does not touch the `position` field. -/
theorem init_remove_pending_position (a : AgentAttrs) :
    (init_remove_pending a).position = a.position := by
  unfold init_remove_pending
  split_ifs <;> rfl

/-- `init_volume` does not touch the `position` field. -/
theorem init_volume_position (a : AgentAttrs) (v : ℤ) :
    (init_volume a v).position = a.position := by
  unfold init_volume
  split_ifs <;> rfl

/-- `init_motility` does not touch the `position` field. -/
theorem init_motility_position (a : AgentAttrs) (m : ℚ) :
    (init_motility a m).position = a.position := by
  unfold init_motility
  split_ifs <;> rfl

/-- `init_binding_affinity` does not touch the `position` field. -/
theorem init_binding_affinity_position (a : AgentAttrs) (b : ℚ) :
    (init_binding_affinity a b).position = a.position := by
  unfold init_binding_affinity
  split_ifs <;> rfl

/-- `init_displacement_limit` does not touch the `position` field. -/
theorem init_displacement_limit_position (a : AgentAttrs) (d : ℤ) :
    (init_displacement_limit a d).position = a.position := by
  unfold init_displacement_limit
  split_ifs <;> rfl

/-- After `init_position`, an absent-or-matching `position` attribute
equals the placement position. -/
theorem init_position_position (a : AgentAttrs) (p : ℤ × ℤ)
    (h : a.position = none ∨ a.position = some p) :
    (init_position a p).position = some p := by
  unfold init_position
  rcases h with h | h
  · rw [if_pos h]
  · rw [if_neg (show ¬ a.position = none by
      rw [h]; exact fun hx => Option.noConfusion hx)]
    exact h

/-- `_initialize_attributes` of the lattice space puts the placement
position into the `position` attribute whenever it was absent or already
equal to it. -/
theorem latt_init_attrs_position (a : AgentAttrs) (position : ℤ × ℤ)
    (volume : ℤ) (motility binding_affinity : ℚ) (displacement_limit : ℤ)
    (h : a.position = none ∨ a.position = some position) :
    (latt_init_attrs a position volume motility binding_affinity
      displacement_limit).position = some position := by
  unfold latt_init_attrs
  rw [init_displacement_limit_position, init_binding_affinity_position,
    init_motility_position]
  apply init_position_position
  rw [init_volume_position, init_remove_pending_position,
    init_division_completed_position, init_division_pending_position]
  exact h

/-- `Lattice2DSpace.add_agent` succeeds only on a valid empty cell, and
then preserves the placement invariant for a fresh agent. -/
theorem add_agent_placement (s s' : Lattice2DSpace) (agent : Nat)
    (position : ℤ × ℤ) (volume : ℤ) (motility binding_affinity : ℚ)
    (displacement_limit : ℤ)
    (hok : Lattice2DSpace.add_agent s agent position volume motility
      binding_affinity displacement_limit = .ok s')
    (hfresh : agent ∉ s.agents)
    (hlay : ∀ p, s.agent_layer p ≠ some agent)
    (hpos : (s.attrs agent).position = none ∨
      (s.attrs agent).position = some position)
    (h : Placement s) : Placement s' := by
  obtain ⟨hnd, h1, h2⟩ := h
  unfold Lattice2DSpace.add_agent at hok
  split_ifs at hok with hv he
  have hempty : s.agent_layer position = none := by
    unfold Lattice2DSpace.is_empty_position at he
    exact of_decide_eq_true he
  cases hok
  unfold Placement
  dsimp only
  refine ⟨?_, ?_, ?_⟩
  · rw [← List.concat_eq_append]
    exact hnd.concat hfresh
  · intro a ha
    rcases List.mem_append.1 ha with ha | ha
    · obtain ⟨p, hp, hL⟩ := h1 a ha
      have hab : a ≠ agent := fun hc => hfresh (hc ▸ ha)
      have hppos : p ≠ position := fun hc => by
        rw [hc, hempty] at hL
        exact Option.noConfusion hL
      exact ⟨p, by rw [Function.update_noteq hab]; exact hp,
        by rw [Function.update_noteq hppos]; exact hL⟩
    · have ha' : a = agent := by simpa using ha
      subst ha'
      refine ⟨position, ?_, by rw [Function.update_same]⟩
      rw [Function.update_same]
      exact latt_init_attrs_position _ _ _ _ _ _ hpos
  · intro p b hb
    rcases eq_or_ne p position with rfl | hpp
    · rw [Function.update_same] at hb
      cases hb
      refine ⟨List.mem_append.2 (Or.inr (List.mem_singleton.2 rfl)), ?_⟩
      rw [Function.update_same]
      exact latt_init_attrs_position _ _ _ _ _ _ hpos
    · rw [Function.update_noteq hpp] at hb
      obtain ⟨hm, hp⟩ := h2 p b hb
      have hba : b ≠ agent := fun hc => hlay p (hc ▸ hb)
      exact ⟨List.mem_append.2 (Or.inl hm),
        by rw [Function.update_noteq hba]; exact hp⟩

/-- `Lattice2DSpace.remove_agent` preserves the placement invariant. -/
theorem remove_agent_placement (s s' : Lattice2DSpace) (agent : Nat)
    (hok : Lattice2DSpace.remove_agent s agent = .ok s')
    (h : Placement s) : Placement s' := by
  obtain ⟨hnd, h1, h2⟩ := h
  unfold Lattice2DSpace.remove_agent at hok
  rcases hposa : (s.attrs agent).position with _ | position
  · rw [hposa] at hok
    have himp : (Except.error (Err.keyError "position") :
        Except Err Lattice2DSpace) = Except.ok s' := hok
    exact Except.noConfusion himp
  rw [hposa] at hok
  simp only [getAttr, Except.bind, bind] at hok
  split_ifs at hok with hmem
  cases hok
  unfold Placement
  dsimp only
  refine ⟨hnd.erase agent, ?_, ?_⟩
  · intro a ha
    have hamem : a ∈ s.agents := (hnd.mem_erase_iff.1 ha).2
    have hane : a ≠ agent := (hnd.mem_erase_iff.1 ha).1
    obtain ⟨p, hp, hL⟩ := h1 a hamem
    refine ⟨p, hp, ?_⟩
    have hppos : p ≠ position := by
      intro hc
      subst hc
      obtain ⟨pm, hpm, hLm⟩ := h1 agent hmem
      rw [hposa] at hpm
      cases hpm
      rw [hLm] at hL
      exact hane (Option.some.inj hL).symm
    rw [Function.update_noteq hppos]
    exact hL
  · intro p b hb
    rcases eq_or_ne p position with rfl | hpp
    · rw [Function.update_same] at hb
      exact Option.noConfusion hb
    · rw [Function.update_noteq hpp] at hb
      obtain ⟨hm, hp⟩ := h2 p b hb
      have hbne : b ≠ agent := by
        intro hc
        subst hc
        rw [hposa] at hp
        exact hpp (Option.some.inj hp).symm
      exact ⟨hnd.mem_erase_iff.2 ⟨hbne, hm⟩, hp⟩

/-- First coordinates produced by the driving-axis loop of `bresenham_2d`:
an arithmetic progression with step `sx`. -/
theorem bresenham_loop_x_fst (sx sy dy dx : ℤ) :
    ∀ (n : Nat) (x y e : ℤ),
      (bresenham_loop_x sx sy dy dx n x y e).map Prod.fst
        = (List.range n).map (fun i : Nat => x + (i : ℤ) * sx)
  | 0, _, _, _ => rfl
  | n + 1, x, y, e => by
    unfold bresenham_loop_x
    dsimp only
    split_ifs with hc <;>
      rw [List.map_cons, bresenham_loop_x_fst sx sy dy dx n _ _ _,
        List.range_succ_eq_map, List.map_cons, List.map_map] <;>
      refine congrArg₂ _ (by push_cast; ring) (List.map_congr_left ?_) <;>
      intro i _ <;>
      show x + sx + (i : ℤ) * sx = x + ((Nat.succ i : ℕ) : ℤ) * sx <;>
      push_cast <;>
      ring

/-- Second coordinates produced by the other loop of `bresenham_2d`. -/
theorem bresenham_loop_y_snd (sx sy dy dx : ℤ) :
    ∀ (n : Nat) (x y e : ℤ),
      (bresenham_loop_y sx sy dy dx n x y e).map Prod.snd
        = (List.range n).map (fun i : Nat => y + (i : ℤ) * sy)
  | 0, _, _, _ => rfl
  | n + 1, x, y, e => by
    unfold bresenham_loop_y
    dsimp only
    split_ifs with hc <;>
      rw [List.map_cons, bresenham_loop_y_snd sx sy dy dx n _ _ _,
        List.range_succ_eq_map, List.map_cons, List.map_map] <;>
      refine congrArg₂ _ (by push_cast; ring) (List.map_congr_left ?_) <;>
      intro i _ <;>
      show y + sy + (i : ℤ) * sy = y + ((Nat.succ i : ℕ) : ℤ) * sy <;>
      push_cast <;>
      ring

/-- The embedded `bresenham_2d` path never visits a cell twice: its
driving coordinate is a strictly monotone arithmetic progression. -/
theorem bresenham_2d_nodup (x1 y1 x2 y2 : ℤ) :
    (bresenham_2d x1 y1 x2 y2).Nodup := by
  unfold bresenham_2d
  dsimp only
  set sx : ℤ := if x1 < x2 then 1 else -1 with hsx
  set sy : ℤ := if y1 < y2 then 1 else -1 with hsy
  split_ifs with hlt
  · -- x drives
    have hx2 : x2 = x1 + (|x2 - x1|.toNat : ℤ) * sx := by
      rcases lt_trichotomy x1 x2 with h | h | h
      · rw [hsx, if_pos h, Int.toNat_of_nonneg (abs_nonneg _),
          abs_of_nonneg (by omega : (0:ℤ) ≤ x2 - x1)]
        ring
      · subst h
        rw [sub_self, abs_zero] at hlt
        exact absurd hlt (not_lt.2 (abs_nonneg _))
      · rw [hsx, if_neg (by omega), Int.toNat_of_nonneg (abs_nonneg _),
          abs_of_nonpos (by omega : x2 - x1 ≤ 0)]
        ring
    have hsx0 : sx ≠ 0 := by
      rw [hsx]
      split_ifs <;> omega
    apply List.Nodup.of_map Prod.fst
    rw [List.map_append, bresenham_loop_x_fst]
    have hmap : (List.map Prod.fst [((x2 : ℤ), (y2 : ℤ))]) = [x1 + (|x2 - x1|.toNat : ℤ) * sx] := by
      rw [← hx2]
      rfl
    rw [hmap, show (List.range |x2 - x1|.toNat).map (fun i : Nat => x1 + (i : ℤ) * sx)
          ++ [x1 + (|x2 - x1|.toNat : ℤ) * sx]
        = (List.range (|x2 - x1|.toNat + 1)).map (fun i : Nat => x1 + (i : ℤ) * sx) from by
      rw [List.range_succ, List.map_append]
      rfl]
    refine List.Nodup.map ?_ (List.nodup_range _)
    intro i j hij
    have h2 : (i : ℤ) * sx = (j : ℤ) * sx := add_left_cancel hij
    have := mul_right_cancel₀ hsx0 h2
    exact_mod_cast this
  · -- y drives
    have hy2 : y2 = y1 + (|y2 - y1|.toNat : ℤ) * sy := by
      rcases lt_trichotomy y1 y2 with h | h | h
      · rw [hsy, if_pos h, Int.toNat_of_nonneg (abs_nonneg _),
          abs_of_nonneg (by omega : (0:ℤ) ≤ y2 - y1)]
        ring
      · subst h
        simp
      · rw [hsy, if_neg (by omega), Int.toNat_of_nonneg (abs_nonneg _),
          abs_of_nonpos (by omega : y2 - y1 ≤ 0)]
        ring
    have hsy0 : sy ≠ 0 := by
      rw [hsy]
      split_ifs <;> omega
    apply List.Nodup.of_map Prod.snd
    rw [List.map_append, bresenham_loop_y_snd]
    have hmap : (List.map Prod.snd [((x2 : ℤ), (y2 : ℤ))]) = [y1 + (|y2 - y1|.toNat : ℤ) * sy] := by
      rw [← hy2]
      rfl
    rw [hmap, show (List.range |y2 - y1|.toNat).map (fun i : Nat => y1 + (i : ℤ) * sy)
          ++ [y1 + (|y2 - y1|.toNat : ℤ) * sy]
        = (List.range (|y2 - y1|.toNat + 1)).map (fun i : Nat => y1 + (i : ℤ) * sy) from by
      rw [List.range_succ, List.map_append]
      rfl]
    refine List.Nodup.map ?_ (List.nodup_range _)
    intro i j hij
    have h2 : (i : ℤ) * sy = (j : ℤ) * sy := add_left_cancel hij
    have := mul_right_cancel₀ hsy0 h2
    exact_mod_cast this

/-- The embedded `bresenham_2d` path ends at `(x2, y2)`. -/
theorem bresenham_2d_last (x1 y1 x2 y2 : ℤ) (d : ℤ × ℤ) :
    (bresenham_2d x1 y1 x2 y2).getLastD d = (x2, y2) := by
  unfold bresenham_2d
  dsimp only
  split_ifs <;> simp

/-- The length of the embedded `bresenham_2d` path is
`max |x2-x1| |y2-y1| + 1`. -/
theorem bresenham_2d_length (x1 y1 x2 y2 : ℤ) :
    (bresenham_2d x1 y1 x2 y2).length
      = (max |x2 - x1| |y2 - y1|).toNat + 1 := by
  unfold bresenham_2d
  dsimp only
  set sx : ℤ := if x1 < x2 then 1 else -1 with hsx
  set sy : ℤ := if y1 < y2 then 1 else -1 with hsy
  split_ifs with hlt
  · have h1 := congrArg List.length (bresenham_loop_x_fst
      sx sy |y2 - y1| |x2 - x1| |x2 - x1|.toNat x1 y1 (|x2 - x1| / 2))
    simp only [List.length_map, List.length_range] at h1
    rw [List.length_append, h1]
    have : max |x2 - x1| |y2 - y1| = |x2 - x1| := max_eq_left (le_of_lt hlt)
    rw [this]
    rfl
  · have h1 := congrArg List.length (bresenham_loop_y_snd
      sx sy |y2 - y1| |x2 - x1| |y2 - y1|.toNat x1 y1 (|y2 - y1| / 2))
    simp only [List.length_map, List.length_range] at h1
    rw [List.length_append, h1]
    have : max |x2 - x1| |y2 - y1| = |y2 - y1| := max_eq_right (by omega)
    rw [this]
    rfl

/-- The placement invariant depends only on the agent list, the attribute
map and the layer. -/
theorem placement_congr (s t : Lattice2DSpace) (hag : t.agents = s.agents)
    (hat : t.attrs = s.attrs) (hlayer : t.agent_layer = s.agent_layer)
    (h : Placement s) : Placement t := by
  unfold Placement at h ⊢
  rw [hag, hat, hlayer]
  exact h

/-- The division step preserves the placement invariant. -/
theorem perform_cell_division_placement (s s' : Lattice2DSpace) (agent : Nat)
    (target p0 : ℤ × ℤ) (hmem : agent ∈ s.agents)
    (hm : (s.attrs agent).position = some p0)
    (hempty : s.agent_layer target = none)
    (hfl : s.next_id ∉ s.agents)
    (hflay : ∀ p, s.agent_layer p ≠ some s.next_id)
    (hok : Lattice2DSpace.perform_cell_division s agent target = .ok s')
    (h : Placement s) : Placement s' := by
  obtain ⟨hnd, h1, h2⟩ := h
  obtain ⟨q, hq, hLq⟩ := h1 agent hmem
  rw [hm] at hq
  cases hq
  have hp0t : p0 ≠ target := by
    intro hc
    rw [hc, hempty] at hLq
    exact Option.noConfusion hLq
  -- facts about the Bresenham path
  have hnodup := bresenham_2d_nodup p0.1 p0.2 target.1 target.2
  have hlen : 2 ≤ (bresenham_2d p0.1 p0.2 target.1 target.2).length := by
    rw [bresenham_2d_length]
    have hne1 : target.1 - p0.1 ≠ 0 ∨ target.2 - p0.2 ≠ 0 := by
      by_contra hc
      push_neg at hc
      exact hp0t (Prod.ext (by omega) (by omega))
    rcases hne1 with hne1 | hne1
    · have := abs_pos.2 hne1
      have := le_max_left |target.1 - p0.1| |target.2 - p0.2|
      omega
    · have := abs_pos.2 hne1
      have := le_max_right |target.1 - p0.1| |target.2 - p0.2|
      omega
  obtain ⟨pa, pt, hpe⟩ := List.exists_cons_of_ne_nil
    (show bresenham_2d p0.1 p0.2 target.1 target.2 ≠ [] by
      intro hc
      rw [hc] at hlen
      exact absurd hlen (by decide))
  obtain ⟨pb, pr, hpt⟩ := List.exists_cons_of_ne_nil
    (show pt ≠ [] by
      intro hc
      rw [hc] at hpe
      rw [hpe] at hlen
      exact absurd hlen (by simp))
  rw [hpt] at hpe
  have hdrop : (bresenham_2d p0.1 p0.2 target.1 target.2).drop 1 = pb :: pr := by
    rw [hpe]
    rfl
  have hdropne : (bresenham_2d p0.1 p0.2 target.1 target.2).drop 1 ≠ [] := by
    rw [hdrop]
    exact List.cons_ne_nil pb pr
  have hdropnodup : ((bresenham_2d p0.1 p0.2 target.1 target.2).drop 1).Nodup :=
    hnodup.sublist (List.drop_sublist 1 _)
  have hlastb := bresenham_2d_last p0.1 p0.2 target.1 target.2 (0, 0)
  have hlast' : s.agent_layer
      (((bresenham_2d p0.1 p0.2 target.1 target.2).drop 1).getLastD (0, 0))
      = none := by
    rw [hdrop]
    rw [hpe, List.getLastD_cons, List.getLastD_cons] at hlastb
    rw [List.getLastD_cons, hlastb]
    exact hempty
  have hgetD : (bresenham_2d p0.1 p0.2 target.1 target.2).getD 1 (0, 0)
      = ((bresenham_2d p0.1 p0.2 target.1 target.2).drop 1).headD (0, 0) := by
    rw [hpe]
    rfl
  have hif : (if 2 < (bresenham_2d p0.1 p0.2 target.1 target.2).length then
        push_along s ((bresenham_2d p0.1 p0.2 target.1 target.2).drop 1) else s)
      = push_along s ((bresenham_2d p0.1 p0.2 target.1 target.2).drop 1) := by
    split_ifs with hgt
    · rfl
    · have hlen2 : (bresenham_2d p0.1 p0.2 target.1 target.2).length = 2 := by
        omega
      obtain ⟨a, b, hab⟩ := List.length_eq_two.1 hlen2
      rw [hab]
      rfl
  have hbridge := push_clear_eq_moves
    ((bresenham_2d p0.1 p0.2 target.1 target.2).drop 1) s hdropne hdropnodup hlast'
  have hs2eq : clear_cell
      (if 2 < (bresenham_2d p0.1 p0.2 target.1 target.2).length then
        push_along s ((bresenham_2d p0.1 p0.2 target.1 target.2).drop 1) else s)
      ((bresenham_2d p0.1 p0.2 target.1 target.2).getD 1 (0, 0))
      = moves_along s ((bresenham_2d p0.1 p0.2 target.1 target.2).drop 1) := by
    rw [hif, hgetD]
    exact hbridge
  -- reduce the division body in `hok`
  unfold Lattice2DSpace.perform_cell_division at hok
  rw [hm] at hok
  simp only [getAttr, Except.bind, bind] at hok
  rw [hs2eq] at hok
  -- invariant chain up to the clone placement
  have hMagents := moves_along_agents
    ((bresenham_2d p0.1 p0.2 target.1 target.2).drop 1) s
  have hPM : Placement
      (moves_along s ((bresenham_2d p0.1 p0.2 target.1 target.2).drop 1)) :=
    moves_along_placement _ s ⟨hnd, h1, h2⟩
  refine add_agent_placement _ s' _ _ _ _ _ _ hok ?_ ?_ ?_ ?_
  · show (moves_along s ((bresenham_2d p0.1 p0.2 target.1 target.2).drop 1)).next_id
      ∉ (moves_along s ((bresenham_2d p0.1 p0.2 target.1 target.2).drop 1)).agents
    rw [hMagents.1, hMagents.2.2.1]
    exact hfl
  · intro p
    show (moves_along s ((bresenham_2d p0.1 p0.2 target.1 target.2).drop 1)).agent_layer p
      ≠ some (moves_along s ((bresenham_2d p0.1 p0.2 target.1 target.2).drop 1)).next_id
    rw [hMagents.2.2.1]
    exact moves_along_not_some _ s s.next_id hflay p
  · right
    dsimp only
    rw [Function.update_same]
  · have hP3 : Placement
        { moves_along s ((bresenham_2d p0.1 p0.2 target.1 target.2).drop 1) with
          attrs := Function.update
            (moves_along s ((bresenham_2d p0.1 p0.2 target.1 target.2).drop 1)).attrs agent
            { (moves_along s ((bresenham_2d p0.1 p0.2 target.1 target.2).drop 1)).attrs agent with
                division_pending := some false, division_completed := some true } } := by
      refine placement_attrs_congr _ _ ?_ hPM
      intro a
      rcases eq_or_ne a agent with rfl | hne
      · rw [Function.update_same]
      · rw [Function.update_noteq hne]
    refine placement_congr
      { moves_along s ((bresenham_2d p0.1 p0.2 target.1 target.2).drop 1) with
        attrs := Function.update
          (Function.update
            (moves_along s ((bresenham_2d p0.1 p0.2 target.1 target.2).drop 1)).attrs agent
            { (moves_along s ((bresenham_2d p0.1 p0.2 target.1 target.2).drop 1)).attrs agent with
                division_pending := some false, division_completed := some true })
          (moves_along s ((bresenham_2d p0.1 p0.2 target.1 target.2).drop 1)).next_id
          { { (moves_along s ((bresenham_2d p0.1 p0.2 target.1 target.2).drop 1)).attrs agent with
                division_pending := some false, division_completed := some true } with
              position := some ((bresenham_2d p0.1 p0.2 target.1 target.2).getD 1 (0, 0)) } }
      _ (by rfl) (by rfl) (by rfl) ?_
    refine placement_update_fresh_attrs _
      (moves_along s ((bresenham_2d p0.1 p0.2 target.1 target.2).drop 1)).next_id
      _ ?_ ?_ hP3
    · show (moves_along s ((bresenham_2d p0.1 p0.2 target.1 target.2).drop 1)).next_id
        ∉ (moves_along s ((bresenham_2d p0.1 p0.2 target.1 target.2).drop 1)).agents
      rw [hMagents.1, hMagents.2.2.1]
      exact hfl
    · intro p
      show (moves_along s ((bresenham_2d p0.1 p0.2 target.1 target.2).drop 1)).agent_layer p
        ≠ some (moves_along s ((bresenham_2d p0.1 p0.2 target.1 target.2).drop 1)).next_id
      rw [hMagents.2.2.1]
      exact moves_along_not_some _ s s.next_id hflay p

/-- C2: every operation of a `Lattice2DSpace` — `add_agent`,
`remove_agent`, the apply phase of the displacement trials, and
`_perform_cell_division` — preserves the placement invariant: afterwards a
cell of the agent layer is occupied exactly when some agent's `position`
attribute points at it, distinct agents occupy distinct cells, and every
agent of the space sits at its own `position` cell of the layer
(`agent_layer[position(a)] == a`). -/
theorem C2_placement_invariant_preserved (s s' : Lattice2DSpace)
    (hP : Placement s) (hstep : LatticeStep s s') :
    Placement s' ∧
    (∀ p : ℤ × ℤ, (∃ a ∈ s'.agents, (s'.attrs a).position = some p) ↔
      s'.agent_layer p ≠ none) ∧
    (∀ a ∈ s'.agents, ∀ b ∈ s'.agents, ∀ p : ℤ × ℤ,
      (s'.attrs a).position = some p → (s'.attrs b).position = some p →
      a = b) ∧
    (∀ a ∈ s'.agents, ∃ p : ℤ × ℤ, (s'.attrs a).position = some p ∧
      s'.agent_layer p = some a) := by
  have hP' : Placement s' := by
    cases hstep with
    | add t agent position volume motility binding_affinity
        displacement_limit hfl hflay hpos hok =>
      exact add_agent_placement _ _ _ _ _ _ _ _ hok hfl hflay hpos hP
    | remove t agent hok =>
      exact remove_agent_placement _ _ _ hok hP
    | displace moves =>
      exact apply_displacements_placement moves s hP
    | divide t agent target p0 hmem hm hempty hfl hflay hok =>
      exact perform_cell_division_placement _ _ _ _ _ hmem hm hempty hfl
        hflay hok hP
  obtain ⟨hnd, h1, h2⟩ := hP'
  refine ⟨⟨hnd, h1, h2⟩, ?_, ?_, h1⟩
  · intro p
    constructor
    · rintro ⟨a, ha, hpa⟩
      obtain ⟨q, hq, hLq⟩ := h1 a ha
      have hqp : q = p := Option.some.inj (hq.symm.trans hpa)
      rw [hqp] at hLq
      rw [hLq]
      exact fun hc => Option.noConfusion hc
    · intro hne
      cases hL : s'.agent_layer p with
      | none => exact absurd hL hne
      | some a =>
        obtain ⟨hmem, hpos⟩ := h2 p a hL
        exact ⟨a, hmem, hpos⟩
  · intro a ha b hb p hpa hpb
    obtain ⟨qa, hqa, hLa⟩ := h1 a ha
    obtain ⟨qb, hqb, hLb⟩ := h1 b hb
    have hqa' : qa = p := Option.some.inj (hqa.symm.trans hpa)
    have hqb' : qb = p := Option.some.inj (hqb.symm.trans hpb)
    rw [hqa'] at hLa
    rw [hqb'] at hLb
    exact Option.some.inj (hLa.symm.trans hLb)

/-- Witness for C2: the placement invariant holds for the empty 2-by-2
lattice; adding agent 0 at cell (0, 0) is a `LatticeStep`; and the
invariant still holds afterwards. -/
theorem C2_placement_invariant_preserved_witness :
    Placement latt_state0 ∧ LatticeStep latt_state0 latt_state1 ∧
    Placement latt_state1 := by
  have hP : Placement latt_state0 := by
    refine ⟨List.nodup_nil, ?_, ?_⟩
    · intro a ha
      exact absurd ha (List.not_mem_nil a)
    · intro p a h
      exact Option.noConfusion h
  have hstep : LatticeStep latt_state0 latt_state1 :=
    LatticeStep.add latt_state0 latt_state1 0 (0, 0) 0 0 0 1
      (List.not_mem_nil 0) (fun p h => Option.noConfusion h) (Or.inl rfl) rfl
  exact ⟨hP, hstep,
    (C2_placement_invariant_preserved latt_state0 latt_state1 hP hstep).1⟩

/-- Counterexample to C3 as stated: on the empty 2-by-2 lattice, adding
agent 0 at the out-of-bounds cell (5, 5) raises a `ValueError`, yet the
simulation's agent list is *not* unchanged — `Simulation.add_agent`
appends the agent before the space validates the position. -/
theorem C3_sim_list_changed_counterexample :
    (Simulation.add_agent_lattice latt_state0 0 (5, 5) 0 0 0 1).2.isSome
      = true ∧
    (Simulation.add_agent_lattice latt_state0 0 (5, 5) 0 0 0 1).1.sim_agents
      ≠ latt_state0.sim_agents := by
  constructor
  · rfl
  · intro h
    exact absurd h (by decide)

/-- C3 (amended): with a `Lattice2DSpace` installed, `Simulation.add_agent`
at an out-of-bounds or occupied position raises a `ValueError`; the
*space* state is untouched — its agent list, attribute store and agent
layer are exactly those of the pre-call state — but the operation is not
atomic at the simulation level: the agent remains appended to the
simulation's agent list, because the append precedes the validation. -/
theorem C3_add_agent_partial_state (s : Lattice2DSpace) (agent : Nat)
    (position : ℤ × ℤ) (volume : ℤ) (motility binding_affinity : ℚ)
    (displacement_limit : ℤ)
    (hbad : ¬ s.is_valid_position position ∨ ¬ s.is_empty_position position) :
    ∃ e : Err, Simulation.add_agent_lattice s agent position volume motility
      binding_affinity displacement_limit =
      ({ s with sim_agents := s.sim_agents ++ [agent] }, some e) := by
  by_cases hv : s.is_valid_position position
  · refine ⟨.valueError "position already occupied", ?_⟩
    have hne : ¬ (Lattice2DSpace.is_empty_position
        { s with sim_agents := s.sim_agents ++ [agent] } position = true) := by
      rcases hbad with h | h
      · exact absurd hv h
      · exact h
    have hv2 : ¬¬ (Lattice2DSpace.is_valid_position
        { s with sim_agents := s.sim_agents ++ [agent] } position = true) :=
      not_not_intro hv
    simp only [Simulation.add_agent_lattice, Lattice2DSpace.add_agent]
    rw [if_neg hv2, if_pos hne]
  · refine ⟨.valueError "position out of bounds", ?_⟩
    have hv1 : ¬ (Lattice2DSpace.is_valid_position
        { s with sim_agents := s.sim_agents ++ [agent] } position = true) := hv
    simp only [Simulation.add_agent_lattice, Lattice2DSpace.add_agent]
    rw [if_pos hv1]

/-- Witness for C3 (amended): on the one-agent 2-by-2 lattice, adding
agent 1 at the out-of-bounds cell (5, 5) yields some `ValueError` and the
state keeps the space untouched with agent 1 appended to the simulation
list only. -/
theorem C3_add_agent_partial_state_witness :
    (¬ latt_state1.is_valid_position (5, 5) ∨
      ¬ latt_state1.is_empty_position (5, 5)) ∧
    ∃ e : Err, Simulation.add_agent_lattice latt_state1 1 (5, 5) 0 0 0 1 =
      ({ latt_state1 with
          sim_agents := latt_state1.sim_agents ++ [1] }, some e) :=
  ⟨Or.inl (by decide),
    C3_add_agent_partial_state latt_state1 1 (5, 5) 0 0 0 1
      (Or.inl (by decide))⟩

/-- At the clone id the division attribute store holds a copy of the
flagged mother record. -/
theorem division_attrs_clone (attrs : Nat → AgentAttrs) (agent c : Nat) :
    division_attrs attrs agent c c =
      { attrs agent with division_pending := some false,
                         division_completed := some true } := by
  simp only [division_attrs]
  rw [Function.update_same, Function.update_same]

/-- At the mother the division attribute store holds the flagged record. -/
theorem division_attrs_mother (attrs : Nat → AgentAttrs) (agent c : Nat)
    (h : agent ≠ c) :
    division_attrs attrs agent c agent =
      { attrs agent with division_pending := some false,
                         division_completed := some true } := by
  simp only [division_attrs]
  rw [Function.update_noteq h, Function.update_same]

/-- Away from the clone id the division attribute store does not change any
`volume` attribute. -/
theorem division_attrs_volume (attrs : Nat → AgentAttrs) (agent c a : Nat)
    (hc : a ≠ c) :
    ((division_attrs attrs agent c) a).volume = (attrs a).volume := by
  simp only [division_attrs]
  rw [Function.update_noteq hc]
  rcases eq_or_ne a agent with rfl | ha
  · rw [Function.update_same]
  · rw [Function.update_noteq ha]

/-- `init_division_pending` leaves `volume` unchanged. -/
theorem init_division_pending_volume (a : AgentAttrs) :
    (init_division_pending a).volume = a.volume := by
  unfold init_division_pending
  split_ifs <;> rfl

/-- `init_division_completed` leaves `volume` unchanged. -/
theorem init_division_completed_volume (a : AgentAttrs) :
    (init_division_completed a).volume = a.volume := by
  unfold init_division_completed
  split_ifs <;> rfl

/-- `init_remove_pending` leaves `volume` unchanged. -/
theorem init_remove_pending_volume (a : AgentAttrs) :
    (init_remove_pending a).volume = a.volume := by
  unfold init_remove_pending
  split_ifs <;> rfl

/-- `init_volume` does not overwrite a present `volume` attribute. -/
theorem init_volume_of_some (a : AgentAttrs) (w v : ℤ)
    (h : a.volume = some v) : (init_volume a w).volume = some v := by
  unfold init_volume
  rw [if_neg (by rw [h]; exact fun hc => Option.noConfusion hc)]
  exact h

/-- `HomogeneousSpace._initialize_attributes` does not overwrite a present
`volume` attribute. -/
theorem hom_init_attrs_volume_of_some (a : AgentAttrs) (w v : ℤ)
    (h : a.volume = some v) : (hom_init_attrs a w).volume = some v := by
  unfold hom_init_attrs
  apply init_volume_of_some
  rw [init_remove_pending_volume, init_division_completed_volume,
    init_division_pending_volume]
  exact h

/-- The total agent volume depends only on the agents' `volume`
attributes. -/
theorem total_volume_list_congr (f g : Nat → AgentAttrs) (l : List Nat)
    (h : ∀ a ∈ l, (f a).volume = (g a).volume) :
    total_volume_list f l = total_volume_list g l := by
  induction l with
  | nil => rfl
  | cons a rest ih =>
    unfold total_volume_list
    rw [h a (List.mem_cons_self a rest),
      ih (fun b hb => h b (List.mem_cons_of_mem a hb))]

/-- When the total-volume sum succeeds, `Simulation.add_agent` with a
`HomogeneousSpace` appends the agent to both lists, initializes its
attributes with volume 0, and touches nothing else. -/
theorem add_agent_hom_exists (t : HomogeneousSpace) (b : Nat) (S : ℤ)
    (hvol : total_volume_list t.attrs t.agents = .ok S) :
    ∃ u, Simulation.add_agent_hom t b = .ok u ∧
      u.agents = t.agents ++ [b] ∧
      u.sim_agents = t.sim_agents ++ [b] ∧
      u.has_free_volume = t.has_free_volume ∧
      u.next_id = t.next_id ∧
      u.attrs = Function.update t.attrs b (hom_init_attrs (t.attrs b) 0) := by
  unfold Simulation.add_agent_hom HomogeneousSpace.add_agent
  dsimp only
  rw [hvol]
  simp only [Except.bind, bind]
  exact ⟨_, rfl, rfl, rfl, rfl, rfl, rfl⟩

/-- In the fitting branch, `_process_agent_division` reduces to an
`add_agent` call for the clone on the flag-and-copy updated store. -/
theorem process_division_fits (s : HomogeneousSpace) (agent : Nat) (S v : ℤ)
    (hS : total_volume_list s.attrs s.agents = .ok S)
    (hv : (s.attrs agent).volume = some v)
    (hfree : s.has_free_volume = true) (hfit : S + v ≤ s.volume) :
    s.process_agent_division agent = Simulation.add_agent_hom
      { s with attrs := division_attrs s.attrs agent s.next_id,
               next_id := s.next_id + 1 } s.next_id := by
  unfold HomogeneousSpace.process_agent_division
  rw [if_neg (show ¬ (s.has_free_volume = false) from by rw [hfree]; decide),
    hS, hv]
  simp only [Except.bind, bind, getAttr]
  rw [if_pos hfit]

/-- C6: the homogeneous division policy.  With the total volume `S` and the
agent's volume `v`: (1) if the latch is up and `S + v ≤ capacity`,
division succeeds — the clone (fresh id) is appended to the space and
simulation lists, the mother's `division_pending` becomes false and
`division_completed` true, the clone keeps the mother's volume, and the
latch stays up; (2) if the latch is up but `S + v > capacity`, nothing is
cloned and the latch is cleared; (3) if the latch is down the call is a
no-op; (4) removing an agent raises the latch exactly when the remaining
total volume fits the capacity (and never lowers it); (5) adding an agent
never changes the latch. -/
theorem C6_division_volume_policy (s : HomogeneousSpace) (agent : Nat)
    (S v : ℤ)
    (hS : total_volume_list s.attrs s.agents = .ok S)
    (hv : (s.attrs agent).volume = some v)
    (hfresh : agent ≠ s.next_id)
    (hfresh_list : s.next_id ∉ s.agents) :
    (s.has_free_volume = true → S + v ≤ s.volume →
      ∃ s', s.process_agent_division agent = .ok s' ∧
        s'.agents = s.agents ++ [s.next_id] ∧
        s'.sim_agents = s.sim_agents ++ [s.next_id] ∧
        (s'.attrs agent).division_pending = some false ∧
        (s'.attrs agent).division_completed = some true ∧
        (s'.attrs s.next_id).volume = some v ∧
        s'.has_free_volume = true) ∧
    (s.has_free_volume = true → s.volume < S + v →
      s.process_agent_division agent =
        .ok { s with has_free_volume := false }) ∧
    (s.has_free_volume = false →
      s.process_agent_division agent = .ok s) ∧
    (agent ∈ s.agents → ∀ S',
      total_volume_list s.attrs (s.agents.erase agent) = .ok S' →
      HomogeneousSpace.remove_agent s agent = .ok { s with
        agents := s.agents.erase agent,
        has_free_volume := if S' ≤ s.volume then true
          else s.has_free_volume }) ∧
    (∀ b vol t, HomogeneousSpace.add_agent s b vol = .ok t →
      t.has_free_volume = s.has_free_volume) := by
  refine ⟨?_, ?_, ?_, ?_, ?_⟩
  · intro hfree hfit
    have hvols : ∀ a ∈ s.agents,
        ((division_attrs s.attrs agent s.next_id) a).volume =
          (s.attrs a).volume := by
      intro a ha
      exact division_attrs_volume s.attrs agent s.next_id a
        (fun hc => hfresh_list (hc ▸ ha))
    have hS2 : total_volume_list
        (division_attrs s.attrs agent s.next_id) s.agents = .ok S :=
      (total_volume_list_congr _ _ _ hvols).trans hS
    obtain ⟨u, hoku, hag, hsim, hfr, _, hattrs⟩ :=
      add_agent_hom_exists
        { s with attrs := division_attrs s.attrs agent s.next_id,
                 next_id := s.next_id + 1 } s.next_id S hS2
    refine ⟨u, (process_division_fits s agent S v hS hv hfree hfit).trans hoku,
      hag, hsim, ?_, ?_, ?_, hfr.trans hfree⟩
    · rw [hattrs, Function.update_noteq hfresh]
      show ((division_attrs s.attrs agent s.next_id) agent).division_pending
        = some false
      rw [division_attrs_mother s.attrs agent s.next_id hfresh]
    · rw [hattrs, Function.update_noteq hfresh]
      show ((division_attrs s.attrs agent s.next_id) agent).division_completed
        = some true
      rw [division_attrs_mother s.attrs agent s.next_id hfresh]
    · rw [hattrs, Function.update_same]
      show (hom_init_attrs
        ((division_attrs s.attrs agent s.next_id) s.next_id) 0).volume
        = some v
      apply hom_init_attrs_volume_of_some
      rw [division_attrs_clone]
      exact hv
  · intro hfree hover
    unfold HomogeneousSpace.process_agent_division
    rw [if_neg (show ¬ (s.has_free_volume = false) from by
        rw [hfree]; decide), hS, hv]
    simp only [Except.bind, bind, getAttr]
    rw [if_neg (not_le.mpr hover)]
  · intro hfree
    unfold HomogeneousSpace.process_agent_division
    rw [if_pos hfree]
  · intro hmem S' hS'
    unfold HomogeneousSpace.remove_agent
    rw [if_pos hmem]
    dsimp only
    rw [hS']
    simp only [Except.bind, bind]
    by_cases hle : S' ≤ s.volume
    · rw [if_pos hle, if_pos hle]
    · rw [if_neg hle, if_neg hle]
  · intro b vol t hok
    unfold HomogeneousSpace.add_agent at hok
    cases htv : total_volume_list s.attrs s.agents with
    | error e =>
      rw [htv] at hok
      simp only [Except.bind, bind] at hok
      exact Except.noConfusion
        (show (Except.error e : Except Err HomogeneousSpace) = .ok t from hok)
    | ok SS =>
      rw [htv] at hok
      simp only [Except.bind, bind] at hok
      cases Except.ok.inj hok
      rfl

/-- Witness for C6: on the one-agent space `hom_state0` (capacity 5, total
volume 1, mother volume 1, latch up) the division of agent 7 succeeds with
clone id 8. -/
theorem C6_division_volume_policy_witness :
    ∃ s', hom_state0.process_agent_division 7 = .ok s' ∧
      s'.agents = hom_state0.agents ++ [8] ∧
      s'.sim_agents = hom_state0.sim_agents ++ [8] ∧
      (s'.attrs 7).division_pending = some false ∧
      (s'.attrs 7).division_completed = some true ∧
      (s'.attrs 8).volume = some 1 ∧
      s'.has_free_volume = true :=
  (C6_division_volume_policy hom_state0 7 1 1 rfl rfl (by decide)
    (by decide)).1 rfl (by decide)

/-- `init_division_pending` leaves `substrate_info` unchanged. -/
theorem init_division_pending_substrate_info (a : AgentAttrs) :
    (init_division_pending a).substrate_info = a.substrate_info := by
  unfold init_division_pending
  split_ifs <;> rfl

/-- `init_division_completed` leaves `substrate_info` unchanged. -/
theorem init_division_completed_substrate_info (a : AgentAttrs) :
    (init_division_completed a).substrate_info = a.substrate_info := by
  unfold init_division_completed
  split_ifs <;> rfl

/-- `init_remove_pending` leaves `substrate_info` unchanged. -/
theorem init_remove_pending_substrate_info (a : AgentAttrs) :
    (init_remove_pending a).substrate_info = a.substrate_info := by
  unfold init_remove_pending
  split_ifs <;> rfl

/-- `init_volume` leaves `substrate_info` unchanged. -/
theorem init_volume_substrate_info (a : AgentAttrs) (w : ℤ) :
    (init_volume a w).substrate_info = a.substrate_info := by
  unfold init_volume
  split_ifs <;> rfl

/-- `init_position` leaves `substrate_info` unchanged. -/
theorem init_position_substrate_info (a : AgentAttrs) (p : ℤ × ℤ) :
    (init_position a p).substrate_info = a.substrate_info := by
  unfold init_position
  split_ifs <;> rfl

/-- `init_motility` leaves `substrate_info` unchanged. -/
theorem init_motility_substrate_info (a : AgentAttrs) (m : ℚ) :
    (init_motility a m).substrate_info = a.substrate_info := by
  unfold init_motility
  split_ifs <;> rfl

/-- `init_binding_affinity` leaves `substrate_info` unchanged. -/
theorem init_binding_affinity_substrate_info (a : AgentAttrs) (b : ℚ) :
    (init_binding_affinity a b).substrate_info = a.substrate_info := by
  unfold init_binding_affinity
  split_ifs <;> rfl

/-- `init_displacement_limit` leaves `substrate_info` unchanged. -/
theorem init_displacement_limit_substrate_info (a : AgentAttrs) (d : ℤ) :
    (init_displacement_limit a d).substrate_info = a.substrate_info := by
  unfold init_displacement_limit
  split_ifs <;> rfl

/-- When the homogeneous agent loop reaches an agent whose flags are
present and false but which lacks `substrate_info`, it raises `KeyError`
instead of skipping the agent. -/
theorem hom_loop_missing_info (s : HomogeneousSpace) (a : Nat)
    (rest : List Nat)
    (h1 : (s.attrs a).division_pending = some false)
    (h2 : (s.attrs a).remove_pending = some false)
    (h3 : (s.attrs a).substrate_info = none) :
    hom_update_agent_loop (a :: rest) s =
      .error (.keyError "substrate_info") := by
  simp only [hom_update_agent_loop, h1, h2, h3, getAttr, Except.bind, bind,
    Bool.false_eq_true, if_false]

/-- When the lattice node-rebuild loop reaches an agent lacking
`substrate_info`, it raises `KeyError` instead of skipping the agent. -/
theorem latt_loop_missing_info (s : Lattice2DSpace) (a : Nat)
    (rest : List Nat) (h : (s.attrs a).substrate_info = none) :
    latt_node_rebuild_loop (a :: rest) s =
      .error (.keyError "substrate_info") := by
  simp only [latt_node_rebuild_loop, h, getAttr, Except.bind, bind]

/-- C10: both spaces read `substrate_info` of every held agent on a due
agent tick, and neither space's attribute initialization creates it.  If
the first held agent lacks the attribute (with its two flags present and
false, as the space's own `add_agent` leaves them), the homogeneous agent
phase aborts with `KeyError`; likewise the lattice node rebuild for an
agent lacking the attribute; and `hom_init_attrs` / `latt_init_attrs`
never set `substrate_info`. -/
theorem C10_missing_substrate_info_key_error :
    (∀ (s : HomogeneousSpace) (a : Nat) (rest : List Nat),
      (s.attrs a).division_pending = some false →
      (s.attrs a).remove_pending = some false →
      (s.attrs a).substrate_info = none →
      hom_update_agent_loop (a :: rest) s =
        .error (.keyError "substrate_info")) ∧
    (∀ (s : HomogeneousSpace) (a : Nat) (rest : List Nat),
      (s.attrs a).division_pending = some false →
      (s.attrs a).remove_pending = some false →
      (s.attrs a).substrate_info = none →
      s.agents = a :: rest →
      s.update_agent_phase = .error (.keyError "substrate_info")) ∧
    (∀ (s : Lattice2DSpace) (a : Nat) (rest : List Nat),
      (s.attrs a).substrate_info = none →
      latt_node_rebuild_loop (a :: rest) s =
        .error (.keyError "substrate_info")) ∧
    (∀ (s : Lattice2DSpace) (a : Nat) (rest : List Nat),
      (s.attrs a).substrate_info = none →
      s.agents = a :: rest →
      s.node_rebuild = .error (.keyError "substrate_info")) ∧
    (∀ (a : AgentAttrs) (w : ℤ),
      (hom_init_attrs a w).substrate_info = a.substrate_info) ∧
    (∀ (a : AgentAttrs) (p : ℤ × ℤ) (w : ℤ) (m b : ℚ) (d : ℤ),
      (latt_init_attrs a p w m b d).substrate_info = a.substrate_info) := by
  refine ⟨hom_loop_missing_info, ?_, latt_loop_missing_info, ?_, ?_, ?_⟩
  · intro s a rest h1 h2 h3 hag
    unfold HomogeneousSpace.update_agent_phase
    dsimp only
    rw [hag]
    exact hom_loop_missing_info _ a rest h1 h2 h3
  · intro s a rest h hag
    unfold Lattice2DSpace.node_rebuild
    dsimp only
    rw [hag]
    exact latt_loop_missing_info _ a rest h
  · intro a w
    unfold hom_init_attrs
    rw [init_volume_substrate_info, init_remove_pending_substrate_info,
      init_division_completed_substrate_info,
      init_division_pending_substrate_info]
  · intro a p w m b d
    unfold latt_init_attrs
    rw [init_displacement_limit_substrate_info,
      init_binding_affinity_substrate_info, init_motility_substrate_info,
      init_position_substrate_info, init_volume_substrate_info,
      init_remove_pending_substrate_info,
      init_division_completed_substrate_info,
      init_division_pending_substrate_info]

/-- Witness for C10: the agent phase of `hom_state1` (one agent, flags
false, no `substrate_info`) and the node rebuild of `latt_state1` (one
agent placed by `add_agent`, which never creates `substrate_info`) both
abort with `KeyError`. -/
theorem C10_missing_substrate_info_key_error_witness :
    hom_state1.update_agent_phase = .error (.keyError "substrate_info") ∧
    latt_state1.node_rebuild = .error (.keyError "substrate_info") :=
  ⟨C10_missing_substrate_info_key_error.2.1 hom_state1 7 [] rfl rfl rfl rfl,
   C10_missing_substrate_info_key_error.2.2.2.1 latt_state1 0 [] rfl rfl⟩

/-- Pull an accumulator out of a conditional increment. -/
theorem ite_add_accum {M : Type} [AddZeroClass M] (C : Prop) [Decidable C]
    (a t : M) : (if C then a + t else a) = a + (if C then t else 0) := by
  split_ifs <;> simp

/-- Setting an index of a list back to its current value is the identity. -/
theorem set_getD_self {α : Type} (l : List α) (i : ℕ) (d : α)
    (h : i < l.length) : l.set i (l.getD i d) = l := by
  apply List.ext_getElem
  · simp
  · intro n h1 h2
    rcases eq_or_ne i n with rfl | hne
    · rw [List.getElem_set_self _, List.getD_eq_getElem l d h]
    · exact List.getElem_set_ne hne _

/-- `getD` at the index just written by `set`. -/
theorem set_getD_eq {α : Type} (l : List α) (i : ℕ) (a d : α)
    (h : i < l.length) : (l.set i a).getD i d = a := by
  rw [List.getD_eq_getElem _ d (by simpa using h), List.getElem_set_self _]

/-- **C4 (counterexample).** At positions `(0,0)` and `(1,1)` the Chebyshev
distance is 1 (a diagonal Moore neighbor), yet with binding affinities 1
the pairwise energy returned by the code is `0`, not `-√(1·1)`: the code
tests the *Manhattan* distance, which is 2 here. -/
theorem C4_diagonal_energy_counterexample :
    (max |(0 : ℤ) - 1| |(0 : ℤ) - 1| = 1) ∧
    pairwise_interaction_energy_2d Real.sqrt (0, 0) 1 (1, 1) 1
      = ((0 : ℝ) : WithTop ℝ) ∧
    ((0 : ℝ) : WithTop ℝ) ≠ ((-Real.sqrt (1 * 1) : ℝ) : WithTop ℝ) := by
  refine ⟨by decide, ?_, ?_⟩
  · unfold pairwise_interaction_energy_2d
    norm_num
  · rw [Ne, WithTop.coe_eq_coe, one_mul, Real.sqrt_one]
    norm_num

/-- **C4 (amended).** The pairwise interaction energy is `+∞` when the two
positions coincide, equals `-√(b1·b2)` exactly on the four von-Neumann
offsets (Manhattan distance 1), and equals `0` on the four diagonal Moore
offsets (Manhattan distance 2); the total interaction energy is the sum,
over the 8 Moore neighbors of the agent's position, of the pairwise energy
with the occupying agent (0 for empty or out-of-bounds cells). -/
theorem C4_energy_manhattan :
    (∀ (p : ℤ × ℤ) (b1 b2 : ℝ),
        pairwise_interaction_energy_2d Real.sqrt p b1 p b2 = ⊤) ∧
    (∀ (p d : ℤ × ℤ) (b1 b2 : ℝ), d ∈ get_neighborhood_2d "von_neumann" →
        pairwise_interaction_energy_2d Real.sqrt p b1 (p.1 + d.1, p.2 + d.2) b2
          = ((-Real.sqrt (b1 * b2) : ℝ) : WithTop ℝ)) ∧
    (∀ (p d : ℤ × ℤ) (b1 b2 : ℝ), d ∈ get_neighborhood_2d "moore" →
        d ∉ get_neighborhood_2d "von_neumann" →
        pairwise_interaction_energy_2d Real.sqrt p b1 (p.1 + d.1, p.2 + d.2) b2
          = (0 : WithTop ℝ)) ∧
    (∀ (idx : ℕ) (agent_pos : ℤ × ℤ) (bind_affs : List ℝ) (sizes : ℤ × ℤ)
        (arr : ℤ × ℤ → ℤ),
        ((total_interaction_energy_2d Real.sqrt idx agent_pos bind_affs sizes arr : ℝ) :
            WithTop ℝ)
          = ((get_neighborhood_2d "moore").map (fun d =>
              if 0 ≤ agent_pos.1 + d.1 ∧ agent_pos.1 + d.1 < sizes.1 ∧
                  0 ≤ agent_pos.2 + d.2 ∧ agent_pos.2 + d.2 < sizes.2 then
                if arr (agent_pos.1 + d.1, agent_pos.2 + d.2) ≠ -1 then
                  pairwise_interaction_energy_2d Real.sqrt agent_pos
                    (bind_affs.getD idx 0) (agent_pos.1 + d.1, agent_pos.2 + d.2)
                    (bind_affs.getD (arr (agent_pos.1 + d.1, agent_pos.2 + d.2)).toNat 0)
                else (0 : WithTop ℝ)
              else (0 : WithTop ℝ))).sum) := by
  refine ⟨?_, ?_, ?_, ?_⟩
  · intro p b1 b2
    unfold pairwise_interaction_energy_2d
    simp
  · intro p d b1 b2 hd
    fin_cases hd <;>
      norm_num [pairwise_interaction_energy_2d, sub_add_cancel_left]
  · intro p d b1 b2 hd hnv
    fin_cases hd <;>
      first
        | exact absurd (by decide) hnv
        | norm_num [pairwise_interaction_energy_2d, sub_add_cancel_left]
  · intro idx agent_pos bind_affs sizes arr
    have hm : get_neighborhood_2d "moore"
        = [(-1, -1), (-1, 0), (-1, 1), (0, -1), (0, 1), (1, -1), (1, 0), (1, 1)] := by
      decide
    rw [← total_interaction_energy_2d_eq_coe]
    unfold total_interaction_energy_wt_2d
    rw [hm]
    simp only [total_energy_loop_wt, List.map_cons, List.map_nil, List.sum_cons,
      List.sum_nil, ite_add_accum, WithTop.coe_zero]
    simp only [add_assoc, zero_add, add_zero]

/-- Witness for C4: the second conjunct applied to the von-Neumann offset
`(1, 0)` at the origin with both affinities 1. -/
theorem C4_energy_manhattan_witness :
    ((1, 0) : ℤ × ℤ) ∈ get_neighborhood_2d "von_neumann" ∧
    pairwise_interaction_energy_2d Real.sqrt (0, 0) 1 ((0 : ℤ) + 1, (0 : ℤ) + 0) 1
      = ((-Real.sqrt (1 * 1) : ℝ) : WithTop ℝ) :=
  ⟨by decide, C4_energy_manhattan.2.1 (0, 0) (1, 0) 1 1 (by decide)⟩

/-- **C5.** In a displacement trial whose chosen target cell is in bounds
and empty: the move is accepted (the change flag is set) iff the fresh
uniform draw satisfies `u < exp(-(E1 - E0))`; in particular every move with
`E1 - E0 ≤ 0` is accepted for every `u < 1`; and a rejected move restores
`positions` and the occupancy index array to their pre-trial values. -/
theorem C5_metropolis_acceptance
    (idx : ℕ) (positions : List (ℤ × ℤ)) (baffs : List ℝ) (sizes : ℤ × ℤ)
    (arr : ℤ × ℤ → ℤ) (flags : List Bool) (n_choice : Fin 4) (u : ℝ)
    (E0 E1 : ℝ)
    (hidx : idx < positions.length) (hflen : idx < flags.length)
    (hflag : flags.getD idx false = false)
    (hcur : arr (positions.getD idx (0, 0)) = (idx : ℤ))
    (hbounds : 0 ≤ (trial_target_2d positions idx n_choice).1 ∧
        (trial_target_2d positions idx n_choice).1 < sizes.1 ∧
        0 ≤ (trial_target_2d positions idx n_choice).2 ∧
        (trial_target_2d positions idx n_choice).2 < sizes.2)
    (hempty : arr (trial_target_2d positions idx n_choice) = -1)
    (hE0 : E0 = total_interaction_energy_2d Real.sqrt idx
        (positions.getD idx (0, 0)) baffs sizes arr)
    (hE1 : E1 = total_interaction_energy_2d Real.sqrt idx
        (trial_target_2d positions idx n_choice) baffs sizes
        (displace_agent_2d positions idx (trial_target_2d positions idx n_choice)
          arr).2) :
    ((displacement_trial_2d Real.sqrt Real.exp idx positions baffs sizes arr
          flags n_choice u).2.2.getD idx false = true ↔
        u < Real.exp (-(E1 - E0))) ∧
    (E1 - E0 ≤ 0 → u < 1 →
      (displacement_trial_2d Real.sqrt Real.exp idx positions baffs sizes arr
          flags n_choice u).2.2.getD idx false = true) ∧
    (¬ u < Real.exp (-(E1 - E0)) →
      displacement_trial_2d Real.sqrt Real.exp idx positions baffs sizes arr
          flags n_choice u = (positions, arr, flags)) := by
  subst hE0 hE1
  have hne_ct : positions.getD idx (0, 0) ≠ trial_target_2d positions idx n_choice := by
    unfold trial_target_2d
    have hd : (get_neighborhood_2d "von_neumann").getD n_choice.val (0, 0) ≠ (0, 0) := by
      fin_cases n_choice <;> decide
    intro hp
    apply hd
    have h1 := congrArg Prod.fst hp
    have h2 := congrArg Prod.snd hp
    simp only at h1 h2
    exact Prod.ext (by omega) (by omega)
  have key : displacement_trial_2d Real.sqrt Real.exp idx positions baffs sizes arr
      flags n_choice u =
      if ¬ u < Real.exp (-(total_interaction_energy_2d Real.sqrt idx
            (trial_target_2d positions idx n_choice) baffs sizes
            (displace_agent_2d positions idx (trial_target_2d positions idx n_choice) arr).2 -
          total_interaction_energy_2d Real.sqrt idx (positions.getD idx (0, 0))
            baffs sizes arr)) then
        (positions, arr, flags)
      else
        ((displace_agent_2d positions idx (trial_target_2d positions idx n_choice) arr).1,
         (displace_agent_2d positions idx (trial_target_2d positions idx n_choice) arr).2,
         flags.set idx true) := by
    simp only [displacement_trial_2d]
    rw [if_pos hbounds, if_pos hempty]
    split_ifs with hrej
    · rfl
    · refine Prod.ext ?_ (Prod.ext ?_ rfl)
      · show ((positions.set idx (trial_target_2d positions idx n_choice)).set idx
            (positions.getD idx (0, 0)) : List (ℤ × ℤ)) = positions
        rw [List.set_set, set_getD_self _ _ _ hidx]
      · show Function.update (Function.update
            (Function.update (Function.update arr (positions.getD idx (0, 0)) (-1))
              (trial_target_2d positions idx n_choice) (idx : ℤ))
            ((positions.set idx (trial_target_2d positions idx n_choice)).getD idx (0, 0)) (-1))
            (positions.getD idx (0, 0)) (idx : ℤ) = arr
        rw [set_getD_eq positions idx _ _ hidx]
        funext p
        rcases eq_or_ne p (positions.getD idx (0, 0)) with rfl | hp1
        · rw [Function.update_same, hcur]
        · rw [Function.update_noteq hp1]
          rcases eq_or_ne p (trial_target_2d positions idx n_choice) with rfl | hp2
          · rw [Function.update_same, hempty]
          · rw [Function.update_noteq hp2, Function.update_noteq hp2,
              Function.update_noteq hp1]
  refine ⟨?_, ?_, ?_⟩
  · rw [key]
    split_ifs with hrej
    · rw [set_getD_eq flags idx true false hflen]
      exact iff_of_true rfl hrej
    · rw [hflag]
      exact iff_of_false (by decide) hrej
  · intro hdE hu1
    rw [key, if_neg (not_not.2 (lt_of_lt_of_le hu1 (Real.one_le_exp (by linarith))))]
    exact set_getD_eq flags idx true false hflen
  · intro hrej
    rw [key, if_pos hrej]

/-- Witness for C5: a single agent at `(0,0)` of a 2×2 lattice with
affinity 1, neighbor choice `(1,0)` and draw `u = 1/2`; both energies are 0,
`exp 0 = 1 > 1/2`, so the move is accepted. -/
theorem C5_metropolis_acceptance_witness :
    ((0 : ℕ) < ([((0 : ℤ), (0 : ℤ))] : List (ℤ × ℤ)).length ∧
      ([false].getD 0 false = false) ∧
      (fun p : ℤ × ℤ => if p = (0, 0) then (0 : ℤ) else -1)
          (([((0 : ℤ), (0 : ℤ))] : List (ℤ × ℤ)).getD 0 (0, 0)) = ((0 : ℕ) : ℤ)) ∧
    (displacement_trial_2d Real.sqrt Real.exp 0 [((0 : ℤ), (0 : ℤ))] [1] (2, 2)
        (fun p : ℤ × ℤ => if p = (0, 0) then (0 : ℤ) else -1) [false] ⟨1, by decide⟩
        (1 / 2)).2.2.getD 0 false = true := by
  refine ⟨⟨by decide, by decide, by decide⟩, ?_⟩
  have h := C5_metropolis_acceptance 0 [((0 : ℤ), (0 : ℤ))] [1] (2, 2)
    (fun p : ℤ × ℤ => if p = (0, 0) then (0 : ℤ) else -1) [false] ⟨1, by decide⟩
    (1 / 2) _ _ (by decide) (by decide) (by decide) (by decide) (by decide)
    (by decide) rfl rfl
  refine h.2.1 ?_ (by norm_num)
  show (0 : ℝ) - 0 ≤ 0
  norm_num

/-- **C1.** On a freshly constructed simulation with no agents, space,
models or events, `run(time=(10,'ms'), dt=(2,'ms'))` terminates with an
empty agent list but with `time == 12`, not `10`: the loop runs
`ceil(10/2) + 1 = 6` iterations and each adds `dt = 2` to the clock.  The
repository's own test (`test_simulation_run_elapsed_time`, parametrised
with `(10, 2, 10)`) expects `10`. -/
theorem C1_run_time_overshoot :
    Simulation.run_empty ⟨0, []⟩ (10, "ms") (2, "ms") =
      .ok ⟨12, []⟩ ∧ (12 : ℚ) ≠ 10 := by
  refine ⟨?_, by norm_num⟩
  have hc : (Int.ceil ((10 : ℚ) * 1 / 1 / ((2 : ℚ) * 1 / 1))).toNat + 1 = 6 := by
    norm_num
    rfl
  unfold Simulation.run_empty
  have h1 : convert_time 10 "ms" "ms" = .ok (10 * 1 / 1) := rfl
  have h2 : convert_time 2 "ms" "ms" = .ok (2 * 1 / 1) := rfl
  simp only [h1, h2]
  show Except.ok (run_loop_empty _ _ _) = _
  rw [hc]
  norm_num [run_loop_empty]

/-- **C9.** `add_model` does not invoke `initialize_attributes` on agents
already held by the simulation: after `add_agent 0` followed by
`add_model 7`, model `7` is registered and agent `0` is held, yet the log
contains no `(7, 0)` invocation, contradicting the claimed
"exactly once per agent currently held". -/
theorem C9_add_model_skips_existing_agents :
    ((((SimulationInitLog.mk [] [] []).add_agent 0).add_model 7).agents
        = [0]) ∧
    ((((SimulationInitLog.mk [] [] []).add_agent 0).add_model 7).models
        = [7]) ∧
    ((((SimulationInitLog.mk [] [] []).add_agent 0).add_model 7).init_calls.count
        (7, 0) = 0) := by
  refine ⟨rfl, rfl, rfl⟩

/-- **C7.** For a substrate field whose only node is of type `flux`
(diffusion and decay coefficients play no role in `update_nodes`), one
node-update step preserves `v_f·C_f + v_n·C_n` in exact real arithmetic:
both for the homogeneous field (`v_f` = domain volume) and for the lattice
field (`v_f = dx²`, `C_f` read at the node's cell; all other cells are
untouched). -/
theorem C7_flux_mass_conservation
    (dt v_f dx : ℝ) (n : SubstrateNode ℝ) (c : ℝ) (conc : (ℤ × ℤ) → ℝ)
    (hflux : n.info.stype = "flux") (hvn : n.volume ≠ 0) (hvf : v_f ≠ 0)
    (hdx : dx ≠ 0) :
    (v_f * (HomogeneousSubstrateField.update_nodes dt v_f [] [n] c).1 +
        n.volume *
          (((HomogeneousSubstrateField.update_nodes dt v_f [] [n] c).2.headD n).info.concentration)
      = v_f * c + n.volume * n.info.concentration) ∧
    (∃ conc' n', Lattice2DSubstrateField.update_nodes dt dx [] [n] conc
        = .ok (conc', [n']) ∧
      dx ^ 2 * conc' n.position + n.volume * n'.info.concentration
        = dx ^ 2 * conc n.position + n.volume * n.info.concentration ∧
      ∀ p, p ≠ n.position → conc' p = conc p) := by
  constructor
  · unfold HomogeneousSubstrateField.update_nodes
    simp only [List.nil_append]
    unfold hom_update_nodes_loop
    unfold hom_update_nodes_loop
    simp only [hflux, if_true, reduceIte, List.headD_cons]
    field_simp
    ring
  · unfold Lattice2DSubstrateField.update_nodes
    simp only [List.nil_append]
    unfold latt_update_nodes_loop
    unfold latt_update_nodes_loop
    simp only [hflux, if_true, reduceIte]
    refine ⟨_, _, rfl, ?_, ?_⟩
    · rw [Function.update_same]
      field_simp
      ring
    · intro p hp
      rw [Function.update_noteq hp]

/-- Witness for C7: the conservation law evaluated at a concrete one-node
configuration (`dt = v_f = dx = 1`, field value 1). -/
theorem C7_flux_mass_conservation_witness :
    (flux_unit_node.info.stype = "flux" ∧ flux_unit_node.volume ≠ 0 ∧
      (1 : ℝ) ≠ 0) ∧
    (1 : ℝ) * (HomogeneousSubstrateField.update_nodes 1 1 [] [flux_unit_node] 1).1 +
      flux_unit_node.volume *
        (((HomogeneousSubstrateField.update_nodes (1 : ℝ) 1 [] [flux_unit_node] 1).2.headD
            flux_unit_node).info.concentration)
      = 1 * 1 + flux_unit_node.volume * flux_unit_node.info.concentration :=
  ⟨⟨rfl, by norm_num [flux_unit_node], by norm_num⟩,
   (C7_flux_mass_conservation 1 1 1 flux_unit_node 1 (fun _ => 1) rfl
      (by norm_num [flux_unit_node]) (by norm_num) (by norm_num)).1⟩

/-- **C8.** The `fixed`-node branch of `Lattice2DSubstrateField.update_nodes`
raises `AttributeError` instead of overwriting the cell: the source reads
the misspelled attribute `concentrattion` from the `SubstrateInfo`
dataclass.  Evaluated here on a single fixed node. -/
theorem C8_fixed_node_lattice_error :
    Lattice2DSubstrateField.update_nodes (1 : ℚ) 10 []
        [⟨⟨"fixed", 5, 0, 0, 0⟩, 1, (0, 0)⟩] (fun _ => 0)
      = .error (.attributeError "concentrattion") := rfl

end Lattics
